import Mathlib

/-!
Formal model of the discrete-event manufacturing simulation in
`src/ComputerSimulation_Project2.cpp`, together with proofs about its event
scheduler and production-line behaviour.

Modelling conventions:
* simulated time (C++ `double`) is modelled by `ℚ`;
* the `std::priority_queue<Event, std::vector<Event>, std::greater<Event>>`
  is modelled by its backing vector (a `List`) together with the standard
  binary-heap `push_heap` / `pop_heap` algorithms, comparing only the
  timestamp field exactly as `Event::operator>` does;
* each machine's `default_random_engine` + `uniform_real_distribution` pair
  is modelled by an explicit stream `ℕ → ℚ` of draws and a per-machine index;
* `std::cout` output is ignored (it does not affect the simulation state).
-/

namespace MfgSim

/-- Model of the C++ `Event`: a timestamp paired with a deferred action.
The action type is a parameter, since `Simulation` stores opaque
`std::function<void()>` values. -/
structure Evt (α : Type) where
  time : ℚ
  act : α
deriving DecidableEq

variable {α : Type}

/-- The timestamp stored at position `i` of the queue's backing vector
(`0` when out of range); mirrors reading `v[i].time` during heap operations. -/
def timeAt (l : List (Evt α)) (i : ℕ) : ℚ :=
  match l[i]? with
  | some e => e.time
  | none => 0

/-- Exchange the entries at positions `i` and `j` (`std::swap` on vector
cells); the identity when either index is out of range. -/
def swapPos (l : List (Evt α)) (i j : ℕ) : List (Evt α) :=
  match l[i]?, l[j]? with
  | some x, some y => (l.set i y).set j x
  | _, _ => l

/-- Sift-up loop of `std::push_heap` with `std::greater`: while the entry at
`j` has a strictly smaller timestamp than its parent, exchange them and
continue from the parent.  The first argument is structural fuel; `j + 1`
suffices because the position strictly decreases. -/
def siftUpAux : ℕ → List (Evt α) → ℕ → List (Evt α)
  | 0, l, _ => l
  | fuel + 1, l, j =>
    if j = 0 then l
    else if timeAt l j < timeAt l ((j - 1) / 2) then
      siftUpAux fuel (swapPos l ((j - 1) / 2) j) ((j - 1) / 2)
    else l

/-- Sift-up starting from position `j`. -/
def siftUp (l : List (Evt α)) (j : ℕ) : List (Evt α) :=
  siftUpAux (j + 1) l j

/-- Model of `priority_queue::push`: append the new event to the backing
vector and sift it up (`std::push_heap`). -/
def heapPush (l : List (Evt α)) (e : Evt α) : List (Evt α) :=
  siftUp (l ++ [e]) l.length

/-- Sift-down loop of `std::pop_heap` with `std::greater`: pick the child
with the smaller timestamp (the left one on ties) and exchange while it is
strictly smaller than the current entry.  The first argument is structural
fuel; `l.length` suffices because the position strictly increases. -/
def siftDownAux : ℕ → List (Evt α) → ℕ → List (Evt α)
  | 0, l, _ => l
  | fuel + 1, l, i =>
    if _h : 2 * i + 1 < l.length then
      let c :=
        if 2 * i + 2 < l.length ∧ timeAt l (2 * i + 2) < timeAt l (2 * i + 1) then
          2 * i + 2
        else 2 * i + 1
      if timeAt l c < timeAt l i then siftDownAux fuel (swapPos l i c) c else l
    else l

/-- Sift-down starting from position `i`. -/
def siftDown (l : List (Evt α)) (i : ℕ) : List (Evt α) :=
  siftDownAux l.length l i

/-- Model of `priority_queue::pop` on the backing vector: `std::pop_heap`
exchanges the root with the last entry and repairs the heap on the rest,
then `pop_back` removes the old root. -/
def heapPopRest (l : List (Evt α)) : List (Evt α) :=
  match l with
  | [] => []
  | _ :: _ => siftDown ((swapPos l 0 (l.length - 1)).dropLast) 0

/-- The binary min-heap property (with respect to timestamps) maintained by
`std::priority_queue` with comparator `std::greater<Event>`: every entry's
parent has a smaller-or-equal timestamp. -/
def IsHeap (l : List (Evt α)) : Prop :=
  ∀ j, 0 < j → j < l.length → timeAt l ((j - 1) / 2) ≤ timeAt l j

/-- Intermediate invariant of the sift-up loop: the heap property may fail
only at position `j`, and `j`'s children are already bounded below by `j`'s
parent (so the parent may move down into `j`'s slot). -/
def HeapExceptUp (l : List (Evt α)) (j : ℕ) : Prop :=
  (∀ k, 0 < k → k < l.length → k ≠ j → timeAt l ((k - 1) / 2) ≤ timeAt l k) ∧
  (∀ k, 0 < k → k < l.length → (k - 1) / 2 = j → 0 < j → timeAt l ((j - 1) / 2) ≤ timeAt l k)

/-- Intermediate invariant of the sift-down loop: the heap property may fail
only on the edges from `i` to its children, and `i`'s children are already
bounded below by `i`'s parent. -/
def HeapExceptDown (l : List (Evt α)) (i : ℕ) : Prop :=
  (∀ k, 0 < k → k < l.length → (k - 1) / 2 ≠ i → timeAt l ((k - 1) / 2) ≤ timeAt l k) ∧
  (∀ k, 0 < k → k < l.length → (k - 1) / 2 = i → 0 < i → timeAt l ((i - 1) / 2) ≤ timeAt l k)

/-- Model of the C++ `Simulation` state: the current simulated time and the
pending-event queue, stored as the heap's backing vector. -/
structure SimState (α : Type) where
  currentTime : ℚ
  eventQueue : List (Evt α)

/-- Model of `Simulation::scheduleEvent`: push the event onto the priority
queue.  The C++ body performs no validation of `time` whatsoever. -/
def scheduleEvent (s : SimState α) (time : ℚ) (action : α) : SimState α :=
  { s with eventQueue := heapPush s.eventQueue ⟨time, action⟩ }

/-- One iteration of `Simulation::run` for inert actions: pop the top event
and advance `currentTime` to its timestamp.  Used to analyse the order in
which the run loop executes actions; an action that schedules nothing
leaves the rest of the state unchanged, exactly like a no-op
`std::function`. -/
def drainStep (s : SimState α) : Option (Evt α × SimState α) :=
  match s.eventQueue[0]? with
  | none => none
  | some e => some (e, { currentTime := e.time, eventQueue := heapPopRest s.eventQueue })

/-- The sequence of events popped — hence of actions executed — by
`Simulation::run` on inert actions, with fuel `n`. -/
def drain : ℕ → SimState α → List (Evt α)
  | 0, _ => []
  | n + 1, s =>
    match drainStep s with
    | none => []
    | some (e, s2) => e :: drain n s2

/-- Product identifiers; the C++ keys the per-product duration maps by
`std::string`. -/
abbrev Product := String

/-- Deep embedding of every deferred action (`std::function<void()>`
closure) the manufacturing program schedules.  `retry` carries the product
and deadline captured by value in the breakdown lambda; machine indices:
0 = Raw Material Handler, 1 = Machining, 2 = Assembly, 3 = Quality Control,
4 = Packaging. -/
inductive Act where
  | startShift : Act
  | endShift : Act
  | complete : Fin 5 → Product → Act
  | retry : Fin 5 → Product → ℚ → Act
deriving DecidableEq, Inhabited

/-- Static configuration of one `Machine` (its constructor arguments).  The
duration maps are total functions: `operator[]` on the C++ `unordered_map`
yields `0.0` for a key that was never inserted. -/
structure MachineCfg where
  processTimes : Product → ℚ
  setupTimes : Product → ℚ
  breakdownProbability : ℚ
  maintenanceTime : ℚ

/-- Static configuration of a run of the manufacturing system: the two
console inputs (C++ `int`), the five machine configurations, and one
pseudo-random draw stream per machine (modelling its
`default_random_engine` with `uniform_real_distribution(0.0, 1.0)`). -/
structure Cfg where
  shiftDuration : ℤ
  shiftCount : ℤ
  machine : Fin 5 → MachineCfg
  rand : Fin 5 → ℕ → ℚ

/-- Mutable state of one `Machine`: the busy flag, the number of random
draws its generator has produced so far, and a ghost counter of how many
units it has accepted (used only to state conservation; it never influences
behaviour). -/
structure MachineState where
  isBusy : Bool
  rngIdx : ℕ
  acceptedCount : ℕ

/-- Full mutable state of `ManufacturingSystem`, including its owned
`Simulation`. -/
structure MSState where
  sim : SimState Act
  machines : Fin 5 → MachineState
  productsCompleted : ℤ
  currentShift : ℤ
  shiftEndTime : ℚ
  productQueue : List Product

/-- Model of `Machine::startProcessing`: return unchanged (no-op) when busy
or when processing could not finish by `shiftEnd`; otherwise mark the
machine busy, consume one random draw, and schedule either a breakdown
retry after `maintenanceTime` or a completion after
`processTimes[p] + setupTimes[p]`. -/
def startProcessing (cfg : Cfg) (m : Fin 5) (p : Product) (shiftEnd : ℚ)
    (s : MSState) : MSState :=
  if (s.machines m).isBusy = true ∨
      s.sim.currentTime + (cfg.machine m).processTimes p > shiftEnd then s
  else
    let ms := s.machines m
    let ms2 : MachineState :=
      { isBusy := true, rngIdx := ms.rngIdx + 1, acceptedCount := ms.acceptedCount + 1 }
    let s1 : MSState := { s with machines := Function.update s.machines m ms2 }
    let totalTime := (cfg.machine m).processTimes p + (cfg.machine m).setupTimes p
    if cfg.rand m ms.rngIdx < (cfg.machine m).breakdownProbability then
      let sim2 := scheduleEvent s1.sim (s.sim.currentTime + (cfg.machine m).maintenanceTime)
        (Act.retry m p shiftEnd)
      { s1 with sim := sim2 }
    else
      let sim2 := scheduleEvent s1.sim (s.sim.currentTime + totalTime) (Act.complete m p)
      { s1 with sim := sim2 }

/-- Model of `ManufacturingSystem::startProduction`: pop the front backlog
unit (if any) and offer it to the first machine with the current shift-end
deadline. -/
def startProduction (cfg : Cfg) (s : MSState) : MSState :=
  match s.productQueue with
  | [] => s
  | p :: rest => startProcessing cfg 0 p s.shiftEndTime { s with productQueue := rest }

/-- Model of `ManufacturingSystem::finishProduct`: count the completed unit
and, strictly before the shift-end time, pull the next backlog unit. -/
def finishProduct (cfg : Cfg) (p : Product) (s : MSState) : MSState :=
  let s1 : MSState := { s with productsCompleted := s.productsCompleted + 1 }
  if s1.sim.currentTime < s1.shiftEndTime then startProduction cfg s1 else s1

/-- The continuation wired into each machine (`onProcessComplete`):
machines 0–3 start the next stage with the live shift-end deadline; the
packaging machine (index 4) finishes the product. -/
def onComplete (cfg : Cfg) (m : Fin 5) (p : Product) (s : MSState) : MSState :=
  if h : m.val < 4 then startProcessing cfg ⟨m.val + 1, by omega⟩ p s.shiftEndTime s
  else finishProduct cfg p s

/-- The completion lambda scheduled by `startProcessing` first resets the
machine to idle, then invokes its continuation. -/
def setIdle (m : Fin 5) (s : MSState) : MSState :=
  let ms2 : MachineState := { s.machines m with isBusy := false }
  { s with machines := Function.update s.machines m ms2 }

/-- Model of `ManufacturingSystem::startShift`: advance the shift counter,
fix the shift-end deadline, schedule the shift-end event there, and start
production. -/
def startShift (cfg : Cfg) (s : MSState) : MSState :=
  let s1 : MSState :=
    { s with currentShift := s.currentShift + 1,
             shiftEndTime := s.sim.currentTime + (cfg.shiftDuration : ℚ) }
  let s2 : MSState := { s1 with sim := scheduleEvent s1.sim s1.shiftEndTime Act.endShift }
  startProduction cfg s2

/-- Model of `ManufacturingSystem::endShift`: start the next shift at the
current time when shifts remain; otherwise `printResults`, which only
writes to `std::cout` and leaves the state unchanged. -/
def endShift (cfg : Cfg) (s : MSState) : MSState :=
  if s.currentShift < cfg.shiftCount then
    { s with sim := scheduleEvent s.sim s.sim.currentTime Act.startShift }
  else s

/-- Dispatch of a fired event's action. -/
def execAct (cfg : Cfg) (a : Act) (s : MSState) : MSState :=
  match a with
  | Act.startShift => startShift cfg s
  | Act.endShift => endShift cfg s
  | Act.complete m p => onComplete cfg m p (setIdle m s)
  | Act.retry m p shiftEnd => startProcessing cfg m p shiftEnd s

/-- One iteration of the `Simulation::run` loop driving the manufacturing
system: pop the earliest event, set current time to its timestamp, execute
its action.  Identity once the queue is empty (the loop has terminated). -/
def step (cfg : Cfg) (s : MSState) : MSState :=
  match s.sim.eventQueue[0]? with
  | none => s
  | some e =>
      execAct cfg e.act
        { s with sim := { currentTime := e.time, eventQueue := heapPopRest s.sim.eventQueue } }

/-- `n` iterations of the run loop. -/
def stepN (cfg : Cfg) : ℕ → MSState → MSState
  | 0, s => s
  | n + 1, s => stepN cfg n (step cfg s)

/-- The constructor's backlog loop: 100 iterations, each pushing
`ProductA` then `ProductB`. -/
def mkBacklog : ℕ → List Product
  | 0 => []
  | n + 1 => "ProductA" :: "ProductB" :: mkBacklog n

/-- The backlog `ManufacturingSystem`'s constructor builds. -/
def initialBacklog : List Product := mkBacklog 100

/-- The five hard-coded machine configurations from the
`ManufacturingSystem` constructor (durations in hours; `0.1` = `1/10`,
`0.05` = `1/20`, etc.). -/
def defaultMachineCfg : Fin 5 → MachineCfg
  | 0 => { processTimes := fun p => if p = "ProductA" then 2 else if p = "ProductB" then 3 else 0
           setupTimes := fun p => if p = "ProductA" then 1 else if p = "ProductB" then 3/2 else 0
           breakdownProbability := 1/10, maintenanceTime := 1 }
  | 1 => { processTimes := fun p => if p = "ProductA" then 3 else if p = "ProductB" then 4 else 0
           setupTimes := fun p => if p = "ProductA" then 1 else if p = "ProductB" then 2 else 0
           breakdownProbability := 1/10, maintenanceTime := 3/2 }
  | 2 => { processTimes := fun p => if p = "ProductA" then 4 else if p = "ProductB" then 5 else 0
           setupTimes := fun p => if p = "ProductA" then 3/2 else if p = "ProductB" then 5/2 else 0
           breakdownProbability := 1/10, maintenanceTime := 2 }
  | 3 => { processTimes := fun p => if p = "ProductA" then 1 else if p = "ProductB" then 3/2 else 0
           setupTimes := fun p => if p = "ProductA" then 1/2 else if p = "ProductB" then 1 else 0
           breakdownProbability := 1/20, maintenanceTime := 1/2 }
  | 4 => { processTimes := fun p => if p = "ProductA" then 2 else if p = "ProductB" then 5/2 else 0
           setupTimes := fun p => if p = "ProductA" then 1/2 else if p = "ProductB" then 1 else 0
           breakdownProbability := 1/20, maintenanceTime := 1/2 }

/-- Configuration of a run as `main` constructs it: the two console inputs
plus the constructor's hard-coded tables. -/
def mkCfg (shiftDuration shiftCount : ℤ) (rand : Fin 5 → ℕ → ℚ) : Cfg :=
  { shiftDuration := shiftDuration, shiftCount := shiftCount,
    machine := defaultMachineCfg, rand := rand }

/-- State at the top of `ManufacturingSystem::run`: fresh machines, empty
statistics, full backlog, and the initial `start_shift` event just
scheduled at time `0.0`.  (`shiftEndTime` is an uninitialised `double` in
the C++; it is never read before `startShift` first assigns it, and is
modelled as `0`.) -/
def msRun0 : MSState :=
  { sim := scheduleEvent { currentTime := 0, eventQueue := [] } 0 Act.startShift
    machines := fun _ => { isBusy := false, rngIdx := 0, acceptedCount := 0 }
    productsCompleted := 0
    currentShift := 0
    shiftEndTime := 0
    productQueue := initialBacklog }

/-- Number of queued events whose action satisfies `f`. -/
def cntP (q : List (Evt Act)) (f : Act → Bool) : ℕ :=
  q.countP (fun e => f e.act)

/-- Actions belonging to the shift machinery. -/
def isShiftAct : Act → Bool
  | Act.startShift => true
  | Act.endShift => true
  | _ => false

/-- The `start_shift` action. -/
def isStartAct : Act → Bool
  | Act.startShift => true
  | _ => false

/-- Actions carrying an in-flight unit of machine `m`. -/
def isUnitAct (m : Fin 5) : Act → Bool
  | Act.complete i _ => i = m
  | Act.retry i _ _ => i = m
  | _ => false

/-- Actions carrying an in-flight unit of any machine. -/
def isAnyUnitAct : Act → Bool
  | Act.complete _ _ => true
  | Act.retry _ _ _ => true
  | _ => false

/-- Scheduler sanity invariant: the queue is a well-formed heap and no
pending event lies in the past. -/
def TimeInv (s : MSState) : Prop :=
  IsHeap s.sim.eventQueue ∧ ∀ e ∈ s.sim.eventQueue, s.sim.currentTime ≤ e.time

/-- Durations that make every scheduling offset non-negative; the program
always runs with such values (§7 of the spec assumes positive console
inputs, and the constructor's tables are positive). -/
def GoodCfg (cfg : Cfg) : Prop :=
  0 ≤ cfg.shiftDuration ∧
  ∀ m p, 0 ≤ (cfg.machine m).processTimes p ∧ 0 ≤ (cfg.machine m).setupTimes p ∧
    0 ≤ (cfg.machine m).maintenanceTime

/-- Conservation invariant: in-flight unit events are per-machine exclusive
and imply the machine is busy; completed units plus in-flight unit events
never exceed the units accepted by the first machine; accepted units never
exceed the units removed from the backlog. -/
def ConsInv (s : MSState) : Prop :=
  (∀ m, cntP s.sim.eventQueue (isUnitAct m) ≤ 1) ∧
  (∀ m, 0 < cntP s.sim.eventQueue (isUnitAct m) → (s.machines m).isBusy = true) ∧
  0 ≤ s.productsCompleted ∧
  s.productsCompleted + (cntP s.sim.eventQueue isAnyUnitAct : ℤ) ≤
    ((s.machines 0).acceptedCount : ℤ) ∧
  (s.machines 0).acceptedCount + s.productQueue.length ≤ initialBacklog.length

/-- Shift-counter invariant: at most one pending shift event, a pending
`start_shift` implies shifts remain, and the counter is bounded. -/
def ShiftInv (cfg : Cfg) (s : MSState) : Prop :=
  cntP s.sim.eventQueue isShiftAct ≤ 1 ∧
  (0 < cntP s.sim.eventQueue isStartAct → s.currentShift < cfg.shiftCount) ∧
  s.currentShift ≤ cfg.shiftCount

/-- Four inert events with identical timestamps, scheduled in tag order
0, 1, 2, 3 on a fresh scheduler (the tags stand for four distinct no-op
`std::function` actions). -/
def tieQueue : SimState ℕ :=
  scheduleEvent (scheduleEvent (scheduleEvent (scheduleEvent
    { currentTime := 0, eventQueue := [] } 1 0) 1 1) 1 2) 1 3

/-- Run configuration exhibiting the breakdown bug: shift duration 8, one
shift, and random streams that always draw `0` (a legal value of
`uniform_real_distribution(0.0, 1.0)`, below the first machine's `0.1`
breakdown probability). -/
def cfgBreak : Cfg := mkCfg 8 1 (fun _ _ => 0)

/-- Run configuration whose streams always draw `1/2`, so no machine ever
breaks down (every breakdown probability is at most `0.1`). -/
def cfgHalf : Cfg := mkCfg 8 1 (fun _ _ => 1/2)

/-- Machine configurations with breakdown disabled (probability forced to
0), as in the determinism property of §8 of the spec. -/
def noBreakCfg (d c : ℤ) (rand : Fin 5 → ℕ → ℚ) : Cfg :=
  { shiftDuration := d, shiftCount := c,
    machine := fun m => { defaultMachineCfg m with breakdownProbability := 0 },
    rand := rand }

theorem length_swapPos (l : List (Evt α)) (i j : ℕ) :
    (swapPos l i j).length = l.length := by
  unfold swapPos
  cases hi : l[i]? <;> cases hj : l[j]? <;> simp

theorem timeAt_swapPos (l : List (Evt α)) {i j : ℕ} (hi : i < l.length)
    (hj : j < l.length) (k : ℕ) :
    timeAt (swapPos l i j) k =
      if k = i then timeAt l j else if k = j then timeAt l i else timeAt l k := by
  unfold swapPos timeAt
  rw [List.getElem?_eq_getElem hi, List.getElem?_eq_getElem hj]
  simp only [List.getElem?_set, List.length_set]
  rcases eq_or_ne k i with rfl | hki
  · rcases eq_or_ne j k with rfl | hjk
    · simp [hj]
    · simp [hjk, hj, hi, Ne.symm hjk]
  · rcases eq_or_ne j k with rfl | hjk
    · simp [hki, hj]
    · simp [hki, Ne.symm hki, hjk, Ne.symm hjk]

theorem swapPos_out (l : List (Evt α)) {i j : ℕ} (h : ¬(i < l.length ∧ j < l.length)) :
    swapPos l i j = l := by
  unfold swapPos
  cases hi : l[i]? with
  | none => rfl
  | some x =>
    cases hj : l[j]? with
    | none => rfl
    | some y =>
      exact absurd ⟨(List.getElem?_eq_some.mp hi).1, (List.getElem?_eq_some.mp hj).1⟩ h

theorem getElem?_swapPos (l : List (Evt α)) {i j : ℕ} (hi : i < l.length)
    (hj : j < l.length) (k : ℕ) :
    (swapPos l i j)[k]? =
      if k = i then some (l[j]) else if k = j then some (l[i]) else l[k]? := by
  unfold swapPos
  rw [List.getElem?_eq_getElem hi, List.getElem?_eq_getElem hj]
  simp only [List.getElem?_set, List.length_set]
  rcases eq_or_ne k i with rfl | hki
  · rcases eq_or_ne j k with rfl | hjk
    · simp [hj]
    · simp [hjk, hj, hi, Ne.symm hjk]
  · rcases eq_or_ne j k with rfl | hjk
    · simp [hki, hj]
    · simp [hki, Ne.symm hki, hjk, Ne.symm hjk]

theorem swapPos_perm [DecidableEq α] (l : List (Evt α)) (i j : ℕ) :
    (swapPos l i j).Perm l := by
  by_cases h : i < l.length ∧ j < l.length
  · obtain ⟨hi, hj⟩ := h
    unfold swapPos
    rw [List.getElem?_eq_getElem hi, List.getElem?_eq_getElem hj]
    rw [List.perm_iff_count]
    intro b
    have hj2 : j < (l.set i (l[j])).length := by simpa using hj
    rw [List.count_set _ _ _ _ hj2, List.count_set _ _ _ _ hi]
    have hmi : l[i] ∈ l := List.getElem_mem hi
    have hmj : l[j] ∈ l := List.getElem_mem hj
    have hgi : (l.set i (l[j]))[j] = if i = j then l[j] else l[j] := by
      rw [List.getElem_set]
    have hgi2 : (l.set i (l[j]))[j] = l[j] := by
      rw [hgi]; split <;> rfl
    rw [hgi2]
    by_cases hib : l[i] = b <;> by_cases hjb : l[j] = b
    · simp only [hib, hjb, beq_self_eq_true, if_pos]
      have : 0 < l.count b := List.count_pos_iff.mpr (hib ▸ hmi)
      omega
    · have : 0 < l.count b := List.count_pos_iff.mpr (hib ▸ hmi)
      simp only [beq_iff_eq, hib, hjb, if_pos, if_neg, if_true, if_false]
      omega
    · have : 0 < l.count b := List.count_pos_iff.mpr (hjb ▸ hmj)
      simp only [beq_iff_eq, hib, hjb, if_neg, if_pos, if_true, if_false]
      omega
    · simp only [beq_iff_eq, hib, hjb, if_neg, if_false]
      omega
  · rw [swapPos_out l h]

theorem siftUpAux_perm [DecidableEq α] :
    ∀ (fuel : ℕ) (l : List (Evt α)) (j : ℕ), (siftUpAux fuel l j).Perm l := by
  intro fuel
  induction fuel with
  | zero => intro l j; exact List.Perm.refl l
  | succ fuel ih =>
    intro l j
    unfold siftUpAux
    split
    · exact List.Perm.refl l
    · split
      · exact (ih _ _).trans (swapPos_perm l _ j)
      · exact List.Perm.refl l

theorem siftDownAux_perm [DecidableEq α] :
    ∀ (fuel : ℕ) (l : List (Evt α)) (i : ℕ), (siftDownAux fuel l i).Perm l := by
  intro fuel
  induction fuel with
  | zero => intro l i; exact List.Perm.refl l
  | succ fuel ih =>
    intro l i
    unfold siftDownAux
    split
    · split
      · dsimp only
        split
        · exact (ih _ _).trans (swapPos_perm l i _)
        · exact List.Perm.refl l
      · dsimp only
        split
        · exact (ih _ _).trans (swapPos_perm l i _)
        · exact List.Perm.refl l
    · exact List.Perm.refl l

theorem heapPush_perm [DecidableEq α] (l : List (Evt α)) (e : Evt α) :
    (heapPush l e).Perm (e :: l) :=
  (siftUpAux_perm _ _ _).trans (List.perm_append_singleton e l)

theorem length_heapPush [DecidableEq α] (l : List (Evt α)) (e : Evt α) :
    (heapPush l e).length = l.length + 1 := by
  have := (heapPush_perm l e).length_eq
  simpa using this

theorem heapPopRest_perm [DecidableEq α] (l : List (Evt α)) (e : Evt α)
    (he : l[0]? = some e) : l.Perm (e :: heapPopRest l) := by
  have hlen : 0 < l.length := by
    rcases List.getElem?_eq_some.mp he with ⟨h, _⟩
    omega
  have he0 : l[0] = e := (List.getElem?_eq_some.mp he).2
  have hne : l ≠ [] := List.length_pos.mp hlen
  have hpop : heapPopRest l = siftDown ((swapPos l 0 (l.length - 1)).dropLast) 0 := by
    cases l with
    | nil => simp at hlen
    | cons x xs => rfl
  set l2 := swapPos l 0 (l.length - 1) with hl2
  have hperm2 : l2.Perm l := swapPos_perm l 0 (l.length - 1)
  have hlen2 : l2.length = l.length := hperm2.length_eq
  have hne2 : l2 ≠ [] := List.length_pos.mp (by omega)
  have hlast : l.length - 1 < l.length := by omega
  have hgetl : l2[l2.length - 1]? = some e := by
    have hidx : l2.length - 1 = l.length - 1 := by omega
    rw [hidx, hl2, getElem?_swapPos l hlen hlast]
    rcases Nat.eq_zero_or_pos (l.length - 1) with hz | hpos
    · rw [if_pos hz]
      simp only [hz, he0]
    · rw [if_neg (by omega), if_pos rfl, he0]
  have hgl : l2.getLast hne2 = e := by
    rw [List.getLast_eq_getElem l2 hne2]
    have h2 : l2.length - 1 < l2.length := by omega
    rw [List.getElem?_eq_getElem h2] at hgetl
    exact Option.some.inj hgetl
  have hsplit : l2.dropLast ++ [e] = l2 := by
    conv_rhs => rw [← List.dropLast_concat_getLast hne2]
    rw [hgl]
  have hperm3 : (heapPopRest l).Perm l2.dropLast := by
    rw [hpop]
    exact siftDownAux_perm _ _ _
  have hmid : l2.Perm (e :: l2.dropLast) := by
    have h3 := List.perm_append_singleton e l2.dropLast
    rw [hsplit] at h3
    exact h3
  exact (hperm2.symm.trans hmid).trans (List.Perm.cons e hperm3.symm)

theorem timeAt_lt (l : List (Evt α)) {k : ℕ} (hk : k < l.length) :
    timeAt l k = (l[k]).time := by
  unfold timeAt
  rw [List.getElem?_eq_getElem hk]

theorem isHeap_zero_le (l : List (Evt α)) (h : IsHeap l) :
    ∀ k, k < l.length → timeAt l 0 ≤ timeAt l k := by
  intro k
  induction k using Nat.strong_induction_on with
  | _ k ih =>
    intro hk
    rcases Nat.eq_zero_or_pos k with rfl | hpos
    · exact le_refl _
    · exact le_trans (ih ((k - 1) / 2) (by omega) (by omega)) (h k hpos hk)

theorem isHeap_root_min (l : List (Evt α)) (top e : Evt α) (h : IsHeap l)
    (htop : l[0]? = some top) (he : e ∈ l) : top.time ≤ e.time := by
  obtain ⟨i, hi, rfl⟩ := List.mem_iff_getElem.mp he
  obtain ⟨h0, htop0⟩ := List.getElem?_eq_some.mp htop
  have := isHeap_zero_le l h i hi
  rwa [timeAt_lt l h0, timeAt_lt l hi, htop0] at this

theorem timeAt_append_lt (l : List (Evt α)) (e : Evt α) {k : ℕ} (hk : k < l.length) :
    timeAt (l ++ [e]) k = timeAt l k := by
  unfold timeAt
  rw [List.getElem?_append, if_pos hk]

theorem timeAt_dropLast (l : List (Evt α)) {k : ℕ} (hk : k < l.length - 1) :
    timeAt l.dropLast k = timeAt l k := by
  unfold timeAt
  rw [List.getElem?_dropLast, if_pos hk]

theorem siftUpAux_isHeap :
    ∀ (fuel : ℕ) (l : List (Evt α)) (j : ℕ), j < fuel → j < l.length →
      HeapExceptUp l j → IsHeap (siftUpAux fuel l j) := by
  intro fuel
  induction fuel with
  | zero => intro l j hf; omega
  | succ fuel ih =>
    intro l j hf hj hinv
    unfold siftUpAux
    split
    · next hj0 =>
      subst hj0
      intro k hk hklen
      exact hinv.1 k hk hklen (by omega)
    · next hj0 =>
      split
      · next hlt =>
        set p := (j - 1) / 2 with hp
        have hpj : p < j := by omega
        have hplen : p < l.length := by omega
        apply ih _ p (by omega) (by rw [length_swapPos]; omega)
        have hT := timeAt_swapPos l hplen hj
        constructor
        · intro k hk hklen hkp
          rw [length_swapPos] at hklen
          rw [hT k, hT ((k - 1) / 2)]
          rcases eq_or_ne k j with rfl | hkj
          · rw [if_pos (by omega : (k - 1) / 2 = p), if_neg (by omega : ¬k = p),
              if_pos rfl]
            exact le_of_lt hlt
          · rcases eq_or_ne ((k - 1) / 2) p with hpp | hpp
            · rw [if_pos hpp, if_neg hkp, if_neg hkj]
              refine le_trans (le_of_lt hlt) ?_
              have := hinv.1 k hk hklen hkj
              rwa [hpp] at this
            · rcases eq_or_ne ((k - 1) / 2) j with hpj2 | hpj2
              · rw [if_neg hpp, if_pos hpj2, if_neg hkp, if_neg hkj]
                have := hinv.2 k hk hklen hpj2 (by omega)
                rwa [← hp] at this
              · rw [if_neg hpp, if_neg hpj2, if_neg hkp, if_neg hkj]
                exact hinv.1 k hk hklen hkj
        · intro k hk hklen hpar hppos
          rw [length_swapPos] at hklen
          rw [hT k, hT ((p - 1) / 2)]
          rw [if_neg (by omega : ¬(p - 1) / 2 = p), if_neg (by omega : ¬(p - 1) / 2 = j)]
          rcases eq_or_ne k j with rfl | hkj
          · rw [if_neg (by omega : ¬k = p), if_pos rfl]
            exact hinv.1 p hppos hplen (by omega)
          · rw [if_neg (by omega : ¬k = p), if_neg hkj]
            refine le_trans (hinv.1 p hppos hplen (by omega)) ?_
            have := hinv.1 k hk hklen hkj
            rwa [hpar] at this
      · next hge =>
        intro k hk hklen
        rcases eq_or_ne k j with rfl | hkj
        · exact not_lt.mp hge
        · exact hinv.1 k hk hklen hkj

theorem isHeap_heapPush (l : List (Evt α)) (e : Evt α) (h : IsHeap l) :
    IsHeap (heapPush l e) := by
  unfold heapPush siftUp
  apply siftUpAux_isHeap (l.length + 1) (l ++ [e]) l.length (by omega) (by simp)
  constructor
  · intro k hk hklen hkj
    simp only [List.length_append, List.length_cons, List.length_nil] at hklen
    have hk2 : k < l.length := by omega
    have hp2 : (k - 1) / 2 < l.length := by omega
    rw [timeAt_append_lt l e hk2, timeAt_append_lt l e hp2]
    exact h k hk hk2
  · intro k hk hklen hpar hjpos
    simp only [List.length_append, List.length_cons, List.length_nil] at hklen
    omega

theorem heapExceptDown_swap (l : List (Evt α)) (i c : ℕ) (hi : i < l.length)
    (hc : c < l.length) (hic : i < c) (hchild : (c - 1) / 2 = i)
    (hcmin : ∀ k, 0 < k → k < l.length → (k - 1) / 2 = i → timeAt l c ≤ timeAt l k)
    (hswap : timeAt l c < timeAt l i) (hinv : HeapExceptDown l i) :
    HeapExceptDown (swapPos l i c) c := by
  have hT := timeAt_swapPos l hi hc
  constructor
  · intro k hk hklen hkpar
    rw [length_swapPos] at hklen
    rw [hT k, hT ((k - 1) / 2)]
    rcases eq_or_ne k c with rfl | hkc
    · rw [hchild, if_pos rfl, if_neg (by omega : ¬k = i), if_pos rfl]
      exact le_of_lt hswap
    · rcases eq_or_ne k i with hki | hki
      · rw [if_neg (by omega : ¬(k - 1) / 2 = i), if_neg (by omega : ¬(k - 1) / 2 = c),
          if_pos hki, hki]
        exact hinv.2 c (by omega) hc hchild (by omega)
      · rcases eq_or_ne ((k - 1) / 2) i with hpi | hpi
        · rw [if_pos hpi, if_neg hki, if_neg hkc]
          exact hcmin k hk hklen hpi
        · rw [if_neg hpi, if_neg hkpar, if_neg hki, if_neg hkc]
          exact hinv.1 k hk hklen hpi
  · intro k hk hklen hkpar hc0
    rw [length_swapPos] at hklen
    rw [hT k, hT ((c - 1) / 2)]
    rw [hchild, if_pos rfl, if_neg (by omega : ¬k = i), if_neg (by omega : ¬k = c)]
    have := hinv.1 k hk hklen (by omega)
    rwa [hkpar] at this

theorem siftDownAux_isHeap :
    ∀ (fuel : ℕ) (l : List (Evt α)) (i : ℕ), l.length ≤ fuel + i →
      HeapExceptDown l i → IsHeap (siftDownAux fuel l i) := by
  intro fuel
  induction fuel with
  | zero =>
    intro l i hf hinv
    show IsHeap l
    intro k hk hklen
    exact hinv.1 k hk hklen (by omega)
  | succ fuel ih =>
    intro l i hf hinv
    unfold siftDownAux
    split
    · next hc1 =>
      split
      · next hcond =>
        obtain ⟨hc2, hlt2⟩ := hcond
        dsimp only
        have hcmin : ∀ k, 0 < k → k < l.length → (k - 1) / 2 = i →
            timeAt l (2 * i + 2) ≤ timeAt l k := by
          intro k hk hklen hkpar
          have : k = 2 * i + 1 ∨ k = 2 * i + 2 := by omega
          rcases this with rfl | rfl
          · exact le_of_lt hlt2
          · exact le_refl _
        split
        · next hswap =>
          refine ih (swapPos l i (2 * i + 2)) (2 * i + 2) ?_ ?_
          · rw [length_swapPos]; omega
          · exact heapExceptDown_swap l i (2 * i + 2) (by omega) hc2 (by omega)
              (by omega) hcmin hswap hinv
        · next hnoswap =>
          intro k hk hklen
          by_cases hpar : (k - 1) / 2 = i
          · rw [hpar]
            exact le_trans (not_lt.mp hnoswap) (hcmin k hk hklen hpar)
          · exact hinv.1 k hk hklen hpar
      · next hcond =>
        dsimp only
        have hcmin : ∀ k, 0 < k → k < l.length → (k - 1) / 2 = i →
            timeAt l (2 * i + 1) ≤ timeAt l k := by
          intro k hk hklen hkpar
          have : k = 2 * i + 1 ∨ k = 2 * i + 2 := by omega
          rcases this with rfl | rfl
          · exact le_refl _
          · have : ¬timeAt l (2 * i + 2) < timeAt l (2 * i + 1) := by
              intro hcc
              exact hcond ⟨hklen, hcc⟩
            exact not_lt.mp this
        split
        · next hswap =>
          refine ih (swapPos l i (2 * i + 1)) (2 * i + 1) ?_ ?_
          · rw [length_swapPos]; omega
          · exact heapExceptDown_swap l i (2 * i + 1) (by omega) hc1 (by omega)
              (by omega) hcmin hswap hinv
        · next hnoswap =>
          intro k hk hklen
          by_cases hpar : (k - 1) / 2 = i
          · rw [hpar]
            exact le_trans (not_lt.mp hnoswap) (hcmin k hk hklen hpar)
          · exact hinv.1 k hk hklen hpar
    · next hc1 =>
      intro k hk hklen
      exact hinv.1 k hk hklen (by omega)

theorem isHeap_heapPopRest (l : List (Evt α)) (h : IsHeap l) :
    IsHeap (heapPopRest l) := by
  cases l with
  | nil =>
    intro k hk hklen
    simp [heapPopRest] at hklen
  | cons x xs =>
    show IsHeap (siftDown ((swapPos (x :: xs) 0 ((x :: xs).length - 1)).dropLast) 0)
    have hlen1 : (swapPos (x :: xs) 0 ((x :: xs).length - 1)).length = (x :: xs).length :=
      length_swapPos _ _ _
    have hlen2 : ((swapPos (x :: xs) 0 ((x :: xs).length - 1)).dropLast).length =
        (x :: xs).length - 1 := by
      rw [List.length_dropLast, hlen1]
    apply siftDownAux_isHeap _ _ 0 (by omega)
    constructor
    · intro k hk hklen hkpar
      rw [hlen2] at hklen
      have h0 : (0 : ℕ) < (x :: xs).length := by simp
      have hlast : (x :: xs).length - 1 < (x :: xs).length := by omega
      rw [timeAt_dropLast _ (by omega), timeAt_dropLast _ (by omega)]
      rw [timeAt_swapPos _ h0 hlast, timeAt_swapPos _ h0 hlast]
      rw [if_neg hkpar, if_neg (by omega : ¬(k - 1) / 2 = (x :: xs).length - 1),
        if_neg (by omega : ¬k = 0), if_neg (by omega : ¬k = (x :: xs).length - 1)]
      exact h k hk (by omega)
    · intro k hk hklen hkpar hc0
      omega

theorem mem_heapPush [DecidableEq α] (l : List (Evt α)) (e x : Evt α) :
    x ∈ heapPush l e ↔ x = e ∨ x ∈ l := by
  rw [(heapPush_perm l e).mem_iff]
  simp

theorem mem_heapPopRest [DecidableEq α] (l : List (Evt α)) (e x : Evt α)
    (he : l[0]? = some e) (hx : x ∈ heapPopRest l) : x ∈ l :=
  ((heapPopRest_perm l e he).mem_iff).mpr (List.mem_cons_of_mem e hx)

theorem cntP_heapPush (q : List (Evt Act)) (t : ℚ) (a : Act) (f : Act → Bool) :
    cntP (heapPush q ⟨t, a⟩) f = cntP q f + (if f a = true then 1 else 0) := by
  unfold cntP
  rw [(heapPush_perm q ⟨t, a⟩).countP_eq, List.countP_cons]

theorem cntP_heapPopRest (q : List (Evt Act)) (e : Evt Act) (f : Act → Bool)
    (he : q[0]? = some e) :
    cntP q f = cntP (heapPopRest q) f + (if f e.act = true then 1 else 0) := by
  unfold cntP
  rw [(heapPopRest_perm q e he).countP_eq, List.countP_cons]

theorem stepN_succ_outer (cfg : Cfg) (n : ℕ) (s : MSState) :
    stepN cfg (n + 1) s = step cfg (stepN cfg n s) := by
  induction n generalizing s with
  | zero => rfl
  | succ n ih =>
    show stepN cfg (n + 1) (step cfg s) = _
    rw [ih (step cfg s)]
    rfl

theorem startProcessing_busy (cfg : Cfg) (m : Fin 5) (p : Product) (se : ℚ)
    (s : MSState) (h : (s.machines m).isBusy = true) :
    startProcessing cfg m p se s = s := by
  unfold startProcessing
  rw [if_pos (Or.inl h)]

theorem startProcessing_reject (cfg : Cfg) (m : Fin 5) (p : Product) (se : ℚ)
    (s : MSState)
    (h : s.sim.currentTime + (cfg.machine m).processTimes p > se) :
    startProcessing cfg m p se s = s := by
  unfold startProcessing
  rw [if_pos (Or.inr h)]

/-- Complete case analysis of `Machine::startProcessing`: it is the identity,
or the machine was idle and in range and the result is the accept state with
one new scheduled event (a breakdown retry or a completion). -/
theorem startProcessing_cases (cfg : Cfg) (m : Fin 5) (p : Product) (se : ℚ)
    (s : MSState) :
    startProcessing cfg m p se s = s ∨
    ((s.machines m).isBusy = false ∧
      ¬s.sim.currentTime + (cfg.machine m).processTimes p > se ∧
      ∃ a t,
        ((a = Act.retry m p se ∧
            t = s.sim.currentTime + (cfg.machine m).maintenanceTime) ∨
          (a = Act.complete m p ∧
            t = s.sim.currentTime +
              ((cfg.machine m).processTimes p + (cfg.machine m).setupTimes p))) ∧
        startProcessing cfg m p se s =
          { s with
              machines := Function.update s.machines m
                ⟨true, (s.machines m).rngIdx + 1, (s.machines m).acceptedCount + 1⟩,
              sim := { currentTime := s.sim.currentTime,
                       eventQueue := heapPush s.sim.eventQueue ⟨t, a⟩ } }) := by
  unfold startProcessing
  split
  · exact Or.inl rfl
  · next hguard =>
    push_neg at hguard
    obtain ⟨hbusy, hrange⟩ := hguard
    refine Or.inr ⟨by simpa using hbusy, by exact not_lt.mpr (le_of_not_lt (by simpa using hrange)), ?_⟩
    dsimp only
    split
    · exact ⟨Act.retry m p se, s.sim.currentTime + (cfg.machine m).maintenanceTime,
        Or.inl ⟨rfl, rfl⟩, rfl⟩
    · exact ⟨Act.complete m p,
        s.sim.currentTime + ((cfg.machine m).processTimes p + (cfg.machine m).setupTimes p),
        Or.inr ⟨rfl, rfl⟩, rfl⟩

/-- Complete case analysis of `ManufacturingSystem::startProduction`. -/
theorem startProduction_cases (cfg : Cfg) (s : MSState) :
    (s.productQueue = [] ∧ startProduction cfg s = s) ∨
    (∃ p rest, s.productQueue = p :: rest ∧
      startProduction cfg s =
        startProcessing cfg 0 p s.shiftEndTime { s with productQueue := rest }) := by
  unfold startProduction
  match hq : s.productQueue with
  | [] => exact Or.inl ⟨rfl, rfl⟩
  | p :: rest => exact Or.inr ⟨p, rest, rfl, rfl⟩

theorem startProcessing_sim_time (cfg : Cfg) (m : Fin 5) (p : Product) (se : ℚ)
    (s : MSState) :
    (startProcessing cfg m p se s).sim.currentTime = s.sim.currentTime := by
  rcases startProcessing_cases cfg m p se s with heq | ⟨_, _, a, t, _, heq⟩ <;> rw [heq]

theorem startProduction_sim_time (cfg : Cfg) (s : MSState) :
    (startProduction cfg s).sim.currentTime = s.sim.currentTime := by
  rcases startProduction_cases cfg s with ⟨_, heq⟩ | ⟨p, rest, _, heq⟩ <;> rw [heq]
  exact startProcessing_sim_time cfg 0 p s.shiftEndTime _

theorem finishProduct_sim_time (cfg : Cfg) (p : Product) (s : MSState) :
    (finishProduct cfg p s).sim.currentTime = s.sim.currentTime := by
  unfold finishProduct
  dsimp only
  split
  · exact startProduction_sim_time cfg _
  · rfl

theorem onComplete_sim_time (cfg : Cfg) (m : Fin 5) (p : Product) (s : MSState) :
    (onComplete cfg m p s).sim.currentTime = s.sim.currentTime := by
  unfold onComplete
  split
  · exact startProcessing_sim_time cfg _ p s.shiftEndTime s
  · exact finishProduct_sim_time cfg p s

theorem startShift_sim_time (cfg : Cfg) (s : MSState) :
    (startShift cfg s).sim.currentTime = s.sim.currentTime := by
  unfold startShift
  dsimp only
  exact startProduction_sim_time cfg _

theorem endShift_sim_time (cfg : Cfg) (s : MSState) :
    (endShift cfg s).sim.currentTime = s.sim.currentTime := by
  unfold endShift
  split <;> rfl

theorem execAct_sim_time (cfg : Cfg) (a : Act) (s : MSState) :
    (execAct cfg a s).sim.currentTime = s.sim.currentTime := by
  cases a with
  | startShift => exact startShift_sim_time cfg s
  | endShift => exact endShift_sim_time cfg s
  | complete m p => exact onComplete_sim_time cfg m p _
  | retry m p se => exact startProcessing_sim_time cfg m p se s

theorem startProcessing_timeInv (cfg : Cfg) (m : Fin 5) (p : Product) (se : ℚ)
    (s : MSState) (hg : GoodCfg cfg) (h : TimeInv s) :
    TimeInv (startProcessing cfg m p se s) := by
  rcases startProcessing_cases cfg m p se s with heq | ⟨hb, hr, a, t, ha, heq⟩
  · rwa [heq]
  · rw [heq]
    have ht : s.sim.currentTime ≤ t := by
      rcases ha with ⟨_, rfl⟩ | ⟨_, rfl⟩
      · have := (hg.2 m p).2.2
        linarith
      · have h1 := (hg.2 m p).1
        have h2 := (hg.2 m p).2.1
        linarith
    refine ⟨isHeap_heapPush _ _ h.1, ?_⟩
    intro e he
    rcases (mem_heapPush _ _ e).mp he with rfl | he2
    · exact ht
    · exact h.2 e he2

theorem startProduction_timeInv (cfg : Cfg) (s : MSState) (hg : GoodCfg cfg)
    (h : TimeInv s) : TimeInv (startProduction cfg s) := by
  rcases startProduction_cases cfg s with ⟨_, heq⟩ | ⟨p, rest, _, heq⟩ <;> rw [heq]
  · exact h
  · exact startProcessing_timeInv cfg 0 p s.shiftEndTime _ hg h

theorem finishProduct_timeInv (cfg : Cfg) (p : Product) (s : MSState)
    (hg : GoodCfg cfg) (h : TimeInv s) : TimeInv (finishProduct cfg p s) := by
  unfold finishProduct
  dsimp only
  split
  · exact startProduction_timeInv cfg _ hg h
  · exact h

theorem onComplete_timeInv (cfg : Cfg) (m : Fin 5) (p : Product) (s : MSState)
    (hg : GoodCfg cfg) (h : TimeInv s) : TimeInv (onComplete cfg m p s) := by
  unfold onComplete
  split
  · exact startProcessing_timeInv cfg _ p s.shiftEndTime s hg h
  · exact finishProduct_timeInv cfg p s hg h

theorem startShift_timeInv (cfg : Cfg) (s : MSState) (hg : GoodCfg cfg)
    (h : TimeInv s) : TimeInv (startShift cfg s) := by
  unfold startShift
  dsimp only
  apply startProduction_timeInv cfg _ hg
  refine ⟨isHeap_heapPush _ _ h.1, ?_⟩
  intro e he
  rcases (mem_heapPush _ _ e).mp he with rfl | he2
  · show s.sim.currentTime ≤ s.sim.currentTime + (cfg.shiftDuration : ℚ)
    have : (0 : ℚ) ≤ (cfg.shiftDuration : ℚ) := by
      exact_mod_cast hg.1
    linarith
  · exact h.2 e he2

theorem endShift_timeInv (cfg : Cfg) (s : MSState) (h : TimeInv s) :
    TimeInv (endShift cfg s) := by
  unfold endShift
  split
  · refine ⟨isHeap_heapPush _ _ h.1, ?_⟩
    intro e he
    rcases (mem_heapPush _ _ e).mp he with rfl | he2
    · exact le_refl _
    · exact h.2 e he2
  · exact h

theorem execAct_timeInv (cfg : Cfg) (a : Act) (s : MSState) (hg : GoodCfg cfg)
    (h : TimeInv s) : TimeInv (execAct cfg a s) := by
  cases a with
  | startShift => exact startShift_timeInv cfg s hg h
  | endShift => exact endShift_timeInv cfg s h
  | complete m p => exact onComplete_timeInv cfg m p _ hg h
  | retry m p se => exact startProcessing_timeInv cfg m p se s hg h

theorem step_timeInv (cfg : Cfg) (s : MSState) (hg : GoodCfg cfg) (h : TimeInv s) :
    TimeInv (step cfg s) ∧ s.sim.currentTime ≤ (step cfg s).sim.currentTime := by
  unfold step
  match hq : s.sim.eventQueue[0]? with
  | none => exact ⟨h, le_refl _⟩
  | some e =>
    have he : e ∈ s.sim.eventQueue := by
      obtain ⟨hlt, heq⟩ := List.getElem?_eq_some.mp hq
      exact heq ▸ List.getElem_mem hlt
    have hte : s.sim.currentTime ≤ e.time := h.2 e he
    have h2 : TimeInv { s with sim :=
        { currentTime := e.time, eventQueue := heapPopRest s.sim.eventQueue } } := by
      refine ⟨isHeap_heapPopRest _ h.1, ?_⟩
      intro x hx
      exact isHeap_root_min s.sim.eventQueue e x h.1 hq (mem_heapPopRest _ e x hq hx)
    refine ⟨execAct_timeInv cfg e.act _ hg h2, ?_⟩
    rw [execAct_sim_time cfg e.act]
    exact hte

/-- The no-breakdown accept branch of `Machine::startProcessing`, fully
explicit. -/
theorem startProcessing_accept (cfg : Cfg) (m : Fin 5) (p : Product) (se : ℚ)
    (s : MSState) (hb : (s.machines m).isBusy = false)
    (hr : ¬s.sim.currentTime + (cfg.machine m).processTimes p > se)
    (hnb : ¬cfg.rand m (s.machines m).rngIdx < (cfg.machine m).breakdownProbability) :
    startProcessing cfg m p se s =
      { s with
          machines := Function.update s.machines m
            ⟨true, (s.machines m).rngIdx + 1, (s.machines m).acceptedCount + 1⟩,
          sim := { currentTime := s.sim.currentTime,
                   eventQueue := heapPush s.sim.eventQueue
                     ⟨s.sim.currentTime +
                        ((cfg.machine m).processTimes p + (cfg.machine m).setupTimes p),
                      Act.complete m p⟩ } } := by
  unfold startProcessing
  rw [if_neg (by rw [hb]; simp [hr])]
  dsimp only
  rw [if_neg hnb]
  rfl

/-- The breakdown branch of `Machine::startProcessing`, fully explicit. -/
theorem startProcessing_breakdown (cfg : Cfg) (m : Fin 5) (p : Product) (se : ℚ)
    (s : MSState) (hb : (s.machines m).isBusy = false)
    (hr : ¬s.sim.currentTime + (cfg.machine m).processTimes p > se)
    (hnb : cfg.rand m (s.machines m).rngIdx < (cfg.machine m).breakdownProbability) :
    startProcessing cfg m p se s =
      { s with
          machines := Function.update s.machines m
            ⟨true, (s.machines m).rngIdx + 1, (s.machines m).acceptedCount + 1⟩,
          sim := { currentTime := s.sim.currentTime,
                   eventQueue := heapPush s.sim.eventQueue
                     ⟨s.sim.currentTime + (cfg.machine m).maintenanceTime,
                      Act.retry m p se⟩ } } := by
  unfold startProcessing
  rw [if_neg (by rw [hb]; simp [hr])]
  dsimp only
  rw [if_pos hnb]
  rfl

theorem startProcessing_completed (cfg : Cfg) (m : Fin 5) (p : Product) (se : ℚ)
    (s : MSState) :
    (startProcessing cfg m p se s).productsCompleted = s.productsCompleted := by
  rcases startProcessing_cases cfg m p se s with heq | ⟨_, _, a, t, _, heq⟩ <;> rw [heq]

theorem startProcessing_shift (cfg : Cfg) (m : Fin 5) (p : Product) (se : ℚ)
    (s : MSState) :
    (startProcessing cfg m p se s).currentShift = s.currentShift := by
  rcases startProcessing_cases cfg m p se s with heq | ⟨_, _, a, t, _, heq⟩ <;> rw [heq]

theorem startProcessing_shiftEnd (cfg : Cfg) (m : Fin 5) (p : Product) (se : ℚ)
    (s : MSState) :
    (startProcessing cfg m p se s).shiftEndTime = s.shiftEndTime := by
  rcases startProcessing_cases cfg m p se s with heq | ⟨_, _, a, t, _, heq⟩ <;> rw [heq]

theorem startProcessing_backlog (cfg : Cfg) (m : Fin 5) (p : Product) (se : ℚ)
    (s : MSState) :
    (startProcessing cfg m p se s).productQueue = s.productQueue := by
  rcases startProcessing_cases cfg m p se s with heq | ⟨_, _, a, t, _, heq⟩ <;> rw [heq]

theorem startProduction_completed (cfg : Cfg) (s : MSState) :
    (startProduction cfg s).productsCompleted = s.productsCompleted := by
  rcases startProduction_cases cfg s with ⟨_, heq⟩ | ⟨p, rest, _, heq⟩ <;> rw [heq]
  exact startProcessing_completed cfg 0 p s.shiftEndTime _

theorem startProduction_shift (cfg : Cfg) (s : MSState) :
    (startProduction cfg s).currentShift = s.currentShift := by
  rcases startProduction_cases cfg s with ⟨_, heq⟩ | ⟨p, rest, _, heq⟩ <;> rw [heq]
  exact startProcessing_shift cfg 0 p s.shiftEndTime _

theorem startProduction_shiftEnd (cfg : Cfg) (s : MSState) :
    (startProduction cfg s).shiftEndTime = s.shiftEndTime := by
  rcases startProduction_cases cfg s with ⟨_, heq⟩ | ⟨p, rest, _, heq⟩ <;> rw [heq]
  exact startProcessing_shiftEnd cfg 0 p s.shiftEndTime _

theorem finishProduct_shift (cfg : Cfg) (p : Product) (s : MSState) :
    (finishProduct cfg p s).currentShift = s.currentShift := by
  unfold finishProduct
  dsimp only
  split
  · exact startProduction_shift cfg _
  · rfl

theorem finishProduct_shiftEnd (cfg : Cfg) (p : Product) (s : MSState) :
    (finishProduct cfg p s).shiftEndTime = s.shiftEndTime := by
  unfold finishProduct
  dsimp only
  split
  · exact startProduction_shiftEnd cfg _
  · rfl

theorem onComplete_shift (cfg : Cfg) (m : Fin 5) (p : Product) (s : MSState) :
    (onComplete cfg m p s).currentShift = s.currentShift := by
  unfold onComplete
  split
  · exact startProcessing_shift cfg _ p s.shiftEndTime s
  · exact finishProduct_shift cfg p s

theorem timeInv_msRun0 : TimeInv msRun0 := by
  have hq : msRun0.sim.eventQueue = [⟨0, Act.startShift⟩] := rfl
  constructor
  · intro j hj hlen
    rw [hq] at hlen
    simp at hlen
    omega
  · intro e he
    rw [hq] at he
    simp at he
    rw [he]
    exact le_refl 0

theorem goodCfg_mkCfg (d c : ℤ) (r : Fin 5 → ℕ → ℚ) (hd : 0 ≤ d) :
    GoodCfg (mkCfg d c r) := by
  refine ⟨hd, ?_⟩
  intro m p
  fin_cases m <;> refine ⟨?_, ?_, ?_⟩ <;>
    simp only [mkCfg, defaultMachineCfg] <;>
    first
    | (split_ifs <;> norm_num)
    | norm_num

/-- C1: FALSE as stated.  Counterexample: four actions scheduled at the
identical timestamp `1`, in tag order `0, 1, 2, 3` (see `tieQueue`).  The
run loop executes them in the binary heap's pop order `0, 3, 2, 1`: the
action scheduled fourth (tag `3`) executes before the action scheduled
second (tag `1`), refuting FIFO ordering of equal-timestamp events. -/
theorem tie_fifo_counterexample :
    (drain 4 tieQueue).map (fun e => e.time) = [1, 1, 1, 1] ∧
    (drain 4 tieQueue).map (fun e => e.act) = [0, 3, 2, 1] ∧
    List.indexOf 3 ((drain 4 tieQueue).map (fun e => e.act)) <
      List.indexOf 1 ((drain 4 tieQueue).map (fun e => e.act)) := by
  decide

/-- C1 (amended): the scheduler pops a pending event of minimal timestamp
each iteration and preserves the heap shape, so actions execute in
non-decreasing timestamp order; events sharing a timestamp execute in the
heap's internal pop order, which is deterministic but not FIFO insertion
order. -/
theorem pop_executes_min_timestamp (s : SimState ℕ) (e : Evt ℕ)
    (hq : IsHeap s.eventQueue) (h : s.eventQueue[0]? = some e) :
    drainStep s = some (e, { currentTime := e.time, eventQueue := heapPopRest s.eventQueue }) ∧
    (∀ x ∈ s.eventQueue, e.time ≤ x.time) ∧
    IsHeap (heapPopRest s.eventQueue) := by
  refine ⟨?_, ?_, isHeap_heapPopRest _ hq⟩
  · unfold drainStep
    rw [h]
  · intro x hx
    exact isHeap_root_min _ e x hq h hx

/-- Witness for the amended C1 theorem at a concrete one-event scheduler. -/
theorem pop_executes_min_timestamp_witness :
    drainStep ({ currentTime := 0, eventQueue := [⟨5, 7⟩] } : SimState ℕ) =
      some (⟨5, 7⟩, { currentTime := 5, eventQueue := [] }) ∧
    (∀ x ∈ ({ currentTime := 0, eventQueue := [⟨5, 7⟩] } : SimState ℕ).eventQueue,
      (⟨5, 7⟩ : Evt ℕ).time ≤ x.time) ∧
    IsHeap (heapPopRest ({ currentTime := 0, eventQueue := [⟨5, 7⟩] } : SimState ℕ).eventQueue) :=
  pop_executes_min_timestamp { currentTime := 0, eventQueue := [⟨5, 7⟩] } ⟨5, 7⟩
    (by intro j h1 h2; simp at h2; omega) rfl

/-- C9: FALSE as stated.  Counterexample: with current time `5`, scheduling
an event at time `3` (in the past) is accepted into the queue with no
assert, guard, or error of any kind — `Simulation::scheduleEvent` is a bare
`push` — and the run loop will then pop it and move current time backwards
to `3`. -/
theorem schedule_past_counterexample :
    (scheduleEvent ({ currentTime := 5, eventQueue := [] } : SimState ℕ) 3 0).eventQueue
      = [⟨3, 0⟩] ∧
    (scheduleEvent ({ currentTime := 5, eventQueue := [] } : SimState ℕ) 3 0).currentTime = 5 ∧
    drainStep (scheduleEvent ({ currentTime := 5, eventQueue := [] } : SimState ℕ) 3 0) =
      some (⟨3, 0⟩, { currentTime := 3, eventQueue := [] }) :=
  ⟨rfl, rfl, rfl⟩

/-- C9 (amended): `scheduleEvent` performs no validation whatsoever: even an
event whose timestamp is strictly less than the current time is silently
inserted into the queue (and will fire), rather than surfacing any fatal
programming-error signal. -/
theorem schedule_past_accepted (s : SimState ℕ) (t : ℚ) (a : ℕ)
    (h : t < s.currentTime) :
    (⟨t, a⟩ : Evt ℕ) ∈ (scheduleEvent s t a).eventQueue ∧
    (scheduleEvent s t a).currentTime = s.currentTime ∧
    (scheduleEvent s t a).eventQueue.Perm (⟨t, a⟩ :: s.eventQueue) := by
  refine ⟨?_, rfl, heapPush_perm s.eventQueue ⟨t, a⟩⟩
  exact (mem_heapPush s.eventQueue ⟨t, a⟩ ⟨t, a⟩).mpr (Or.inl rfl)

/-- Witness for the amended C9 theorem. -/
theorem schedule_past_accepted_witness :
    (3 : ℚ) < ({ currentTime := 5, eventQueue := [] } : SimState ℕ).currentTime ∧
    ((⟨3, 0⟩ : Evt ℕ) ∈
        (scheduleEvent ({ currentTime := 5, eventQueue := [] } : SimState ℕ) 3 0).eventQueue ∧
      (scheduleEvent ({ currentTime := 5, eventQueue := [] } : SimState ℕ) 3 0).currentTime =
        ({ currentTime := 5, eventQueue := [] } : SimState ℕ).currentTime ∧
      (scheduleEvent ({ currentTime := 5, eventQueue := [] } : SimState ℕ) 3 0).eventQueue.Perm
        (⟨3, 0⟩ :: ({ currentTime := 5, eventQueue := [] } : SimState ℕ).eventQueue)) :=
  ⟨by norm_num, schedule_past_accepted { currentTime := 5, eventQueue := [] } 3 0 (by norm_num)⟩

/-- C4: across a run of the manufacturing simulation, every popped event's
timestamp is at least the previous one's, so `getCurrentTime` is
monotonically non-decreasing, for any configuration with non-negative
durations (as the program always has). -/
theorem current_time_monotone (cfg : Cfg) (hg : GoodCfg cfg) (n : ℕ) :
    (stepN cfg n msRun0).sim.currentTime ≤ (stepN cfg (n + 1) msRun0).sim.currentTime := by
  have hinv : ∀ k, TimeInv (stepN cfg k msRun0) := by
    intro k
    induction k with
    | zero => exact timeInv_msRun0
    | succ k ih =>
      rw [stepN_succ_outer]
      exact (step_timeInv cfg _ hg ih).1
  rw [stepN_succ_outer]
  exact (step_timeInv cfg _ hg (hinv n)).2

/-- Witness for C4 at the concrete configuration `cfgBreak` and `n = 1`. -/
theorem current_time_monotone_witness :
    GoodCfg cfgBreak ∧
    (stepN cfgBreak 1 msRun0).sim.currentTime ≤ (stepN cfgBreak 2 msRun0).sim.currentTime :=
  ⟨goodCfg_mkCfg 8 1 (fun _ _ => 0) (by norm_num),
    current_time_monotone cfgBreak (goodCfg_mkCfg 8 1 (fun _ _ => 0) (by norm_num)) 1⟩

theorem initialBacklog_cons :
    initialBacklog = "ProductA" :: "ProductB" :: mkBacklog 99 := rfl

/-- C2: the code contradicts this claim.  Failing run (`cfgBreak`): shift
duration 8, one shift, every draw `0`.  At `t = 0` the first machine accepts
`ProductA` and breaks down (`isBusy` is set and never cleared), scheduling a
retry at `t = 1`.  When the retry fires, the re-entered `startProcessing`
hits the `isBusy` guard and returns immediately — the retry is a guaranteed
no-op, the unit is never processed, and the machine never returns to Idle:
the run ends (queue empty, `step` is a fixpoint) with the machine still
busy and zero products completed, even though the retry drew no breakdown
and had ample time before the deadline. -/
theorem breakdown_retry_dead :
    ((stepN cfgBreak 1 msRun0).machines 0).isBusy = true ∧
    (stepN cfgBreak 1 msRun0).sim.eventQueue =
      [⟨1, Act.retry 0 "ProductA" 8⟩, ⟨8, Act.endShift⟩] ∧
    ((stepN cfgBreak 2 msRun0).machines 0).isBusy = true ∧
    (stepN cfgBreak 2 msRun0).sim.eventQueue = [⟨8, Act.endShift⟩] ∧
    (stepN cfgBreak 3 msRun0).sim.eventQueue = [] ∧
    ((stepN cfgBreak 3 msRun0).machines 0).isBusy = true ∧
    (stepN cfgBreak 3 msRun0).productsCompleted = 0 ∧
    ((stepN cfgBreak 3 msRun0).machines 0).acceptedCount = 1 ∧
    step cfgBreak (stepN cfgBreak 3 msRun0) = stepN cfgBreak 3 msRun0 := by
  norm_num [stepN, step, execAct, startShift, endShift, startProduction, startProcessing,
    finishProduct, onComplete, setIdle, scheduleEvent, heapPush, siftUp, siftUpAux,
    heapPopRest, siftDown, siftDownAux, swapPos, timeAt, msRun0, cfgBreak, mkCfg,
    defaultMachineCfg, initialBacklog_cons, Function.update]

/-- C3: the `accept`/`startProcessing` contract.  It is a no-op exactly when
the stage is busy or the unit cannot finish processing by the deadline;
otherwise, with no breakdown drawn, it marks the stage busy and schedules a
completion event at `currentTime + processTimes[p] + setupTimes[p]`; a
completion event's firing resets the stage to idle and invokes the wired
continuation (`onProcessComplete`). -/
theorem startProcessing_contract (cfg : Cfg) (m : Fin 5) (p : Product) (se : ℚ)
    (s : MSState) :
    (startProcessing cfg m p se s = s ↔
      (s.machines m).isBusy = true ∨
        s.sim.currentTime + (cfg.machine m).processTimes p > se) ∧
    ((s.machines m).isBusy = false →
      ¬s.sim.currentTime + (cfg.machine m).processTimes p > se →
      ¬cfg.rand m (s.machines m).rngIdx < (cfg.machine m).breakdownProbability →
      ((startProcessing cfg m p se s).machines m).isBusy = true ∧
      (startProcessing cfg m p se s).sim.eventQueue.Perm
        (⟨s.sim.currentTime +
            ((cfg.machine m).processTimes p + (cfg.machine m).setupTimes p),
          Act.complete m p⟩ :: s.sim.eventQueue) ∧
      (startProcessing cfg m p se s).sim.currentTime = s.sim.currentTime) ∧
    (∀ s2, execAct cfg (Act.complete m p) s2 = onComplete cfg m p (setIdle m s2)) ∧
    (∀ s2, ((setIdle m s2).machines m).isBusy = false) := by
  refine ⟨⟨?_, ?_⟩, ?_, fun s2 => rfl, ?_⟩
  · intro heq
    by_contra hng
    push_neg at hng
    obtain ⟨hb, hr⟩ := hng
    have hb2 : (s.machines m).isBusy = false := by simpa using hb
    have hr2 : ¬s.sim.currentTime + (cfg.machine m).processTimes p > se := not_lt.mpr hr
    by_cases hnb : cfg.rand m (s.machines m).rngIdx < (cfg.machine m).breakdownProbability
    · have heq2 := startProcessing_breakdown cfg m p se s hb2 hr2 hnb
      rw [heq] at heq2
      have hbusy := congrArg (fun x => (x.machines m).isBusy) heq2
      simp only [Function.update_same] at hbusy
      rw [hb2] at hbusy
      exact absurd hbusy (by simp)
    · have heq2 := startProcessing_accept cfg m p se s hb2 hr2 hnb
      rw [heq] at heq2
      have hbusy := congrArg (fun x => (x.machines m).isBusy) heq2
      simp only [Function.update_same] at hbusy
      rw [hb2] at hbusy
      exact absurd hbusy (by simp)
  · intro hg
    unfold startProcessing
    rw [if_pos hg]
  · intro hb hr hnb
    rw [startProcessing_accept cfg m p se s hb hr hnb]
    refine ⟨by simp [Function.update_same], ?_, rfl⟩
    exact heapPush_perm _ _
  · intro s2
    simp [setIdle, Function.update_same]

/-- Witness for C3 at machine 0, `ProductA`, deadline 10, on the initial
state, with draws of `1/2` (no breakdown). -/
theorem startProcessing_contract_witness :
    (msRun0.machines 0).isBusy = false ∧
    ¬msRun0.sim.currentTime + (cfgHalf.machine 0).processTimes "ProductA" > 10 ∧
    ¬cfgHalf.rand 0 (msRun0.machines 0).rngIdx < (cfgHalf.machine 0).breakdownProbability ∧
    (((startProcessing cfgHalf 0 "ProductA" 10 msRun0).machines 0).isBusy = true ∧
      (startProcessing cfgHalf 0 "ProductA" 10 msRun0).sim.eventQueue.Perm
        (⟨msRun0.sim.currentTime +
            ((cfgHalf.machine 0).processTimes "ProductA" +
              (cfgHalf.machine 0).setupTimes "ProductA"),
          Act.complete 0 "ProductA"⟩ :: msRun0.sim.eventQueue) ∧
      (startProcessing cfgHalf 0 "ProductA" 10 msRun0).sim.currentTime =
        msRun0.sim.currentTime) := by
  have h1 : (msRun0.machines 0).isBusy = false := rfl
  have h2 : ¬msRun0.sim.currentTime + (cfgHalf.machine 0).processTimes "ProductA" > 10 := by
    norm_num [msRun0, scheduleEvent, cfgHalf, mkCfg, defaultMachineCfg]
  have h3 : ¬cfgHalf.rand 0 (msRun0.machines 0).rngIdx <
      (cfgHalf.machine 0).breakdownProbability := by
    norm_num [cfgHalf, mkCfg, defaultMachineCfg]
  exact ⟨h1, h2, h3, (startProcessing_contract cfgHalf 0 "ProductA" 10 msRun0).2.1 h1 h2 h3⟩

/-- C6: `finishProduct` increments `productsCompleted` by exactly one on
every invocation; it pulls from the backlog (via `startProduction`) exactly
when current time is strictly less than the shift-end time — in particular
a product finishing exactly at the shift-end time admits no new unit — and
`startProduction` pops the front backlog unit and offers it to the first
stage. -/
theorem finishProduct_contract (cfg : Cfg) (p : Product) (s : MSState) :
    (finishProduct cfg p s).productsCompleted = s.productsCompleted + 1 ∧
    (s.sim.currentTime < s.shiftEndTime →
      finishProduct cfg p s =
        startProduction cfg { s with productsCompleted := s.productsCompleted + 1 }) ∧
    (¬s.sim.currentTime < s.shiftEndTime →
      finishProduct cfg p s = { s with productsCompleted := s.productsCompleted + 1 }) ∧
    (∀ q rest, s.productQueue = q :: rest →
      startProduction cfg s =
        startProcessing cfg 0 q s.shiftEndTime { s with productQueue := rest }) ∧
    (s.productQueue = [] → startProduction cfg s = s) := by
  refine ⟨?_, ?_, ?_, ?_, ?_⟩
  · unfold finishProduct
    dsimp only
    split
    · exact startProduction_completed cfg _
    · rfl
  · intro h
    unfold finishProduct
    dsimp only
    rw [if_pos h]
  · intro h
    unfold finishProduct
    dsimp only
    rw [if_neg h]
  · intro q rest hq
    rcases startProduction_cases cfg s with ⟨hnil, _⟩ | ⟨p2, rest2, hq2, heq⟩
    · rw [hnil] at hq
      exact absurd hq (by simp)
    · rw [hq] at hq2
      obtain ⟨rfl, rfl⟩ := List.cons.inj hq2.symm
      exact heq
  · intro hnil
    rcases startProduction_cases cfg s with ⟨_, heq⟩ | ⟨p2, rest2, hq2, _⟩
    · exact heq
    · rw [hnil] at hq2
      exact absurd hq2 (by simp)

/-- Witness for C6 on the initial state, where current time equals the
shift-end time (`0 = 0`), so no new unit is admitted. -/
theorem finishProduct_contract_witness :
    (finishProduct cfgBreak "ProductA" msRun0).productsCompleted =
      msRun0.productsCompleted + 1 ∧
    ¬msRun0.sim.currentTime < msRun0.shiftEndTime ∧
    finishProduct cfgBreak "ProductA" msRun0 =
      { msRun0 with productsCompleted := msRun0.productsCompleted + 1 } ∧
    startProduction cfgBreak msRun0 =
      startProcessing cfgBreak 0 "ProductA" msRun0.shiftEndTime
        { msRun0 with productQueue := "ProductB" :: mkBacklog 99 } := by
  have hlt : ¬msRun0.sim.currentTime < msRun0.shiftEndTime := by
    norm_num [msRun0, scheduleEvent]
  exact ⟨(finishProduct_contract cfgBreak "ProductA" msRun0).1, hlt,
    (finishProduct_contract cfgBreak "ProductA" msRun0).2.2.1 hlt,
    (finishProduct_contract cfgBreak "ProductA" msRun0).2.2.2.1 "ProductA"
      ("ProductB" :: mkBacklog 99) initialBacklog_cons⟩

/-- C10: the admission check compares only `currentTime + processTimes[p]`
against the deadline, while the completion event is scheduled at
`currentTime + processTimes[p] + setupTimes[p]`; hence for any product with
positive setup time there is a deadline for which the unit is accepted yet
its completion event fires strictly after that deadline. -/
theorem completion_after_deadline (cfg : Cfg) (m : Fin 5) (p : Product)
    (s : MSState) (hb : (s.machines m).isBusy = false)
    (hsetup : 0 < (cfg.machine m).setupTimes p)
    (hnb : ¬cfg.rand m (s.machines m).rngIdx < (cfg.machine m).breakdownProbability) :
    ∃ se,
      ((startProcessing cfg m p se s).machines m).isBusy = true ∧
      (startProcessing cfg m p se s).sim.eventQueue.Perm
        (⟨s.sim.currentTime +
            ((cfg.machine m).processTimes p + (cfg.machine m).setupTimes p),
          Act.complete m p⟩ :: s.sim.eventQueue) ∧
      se < s.sim.currentTime +
        ((cfg.machine m).processTimes p + (cfg.machine m).setupTimes p) := by
  have hr : ¬s.sim.currentTime + (cfg.machine m).processTimes p >
      s.sim.currentTime + (cfg.machine m).processTimes p := lt_irrefl _
  have heq := startProcessing_accept cfg m p
    (s.sim.currentTime + (cfg.machine m).processTimes p) s hb hr hnb
  refine ⟨s.sim.currentTime + (cfg.machine m).processTimes p, ?_, ?_, by linarith⟩
  · rw [heq]
    simp [Function.update_same]
  · rw [heq]
    exact heapPush_perm _ _

/-- Witness for C10 at machine 0, `ProductA` (setup time 1 > 0), on the
initial state, with draws of `1/2` (no breakdown). -/
theorem completion_after_deadline_witness :
    (msRun0.machines 0).isBusy = false ∧
    0 < (cfgHalf.machine 0).setupTimes "ProductA" ∧
    ¬cfgHalf.rand 0 (msRun0.machines 0).rngIdx < (cfgHalf.machine 0).breakdownProbability ∧
    ∃ se,
      ((startProcessing cfgHalf 0 "ProductA" se msRun0).machines 0).isBusy = true ∧
      (startProcessing cfgHalf 0 "ProductA" se msRun0).sim.eventQueue.Perm
        (⟨msRun0.sim.currentTime +
            ((cfgHalf.machine 0).processTimes "ProductA" +
              (cfgHalf.machine 0).setupTimes "ProductA"),
          Act.complete 0 "ProductA"⟩ :: msRun0.sim.eventQueue) ∧
      se < msRun0.sim.currentTime +
        ((cfgHalf.machine 0).processTimes "ProductA" +
          (cfgHalf.machine 0).setupTimes "ProductA") := by
  have h1 : (msRun0.machines 0).isBusy = false := rfl
  have h2 : 0 < (cfgHalf.machine 0).setupTimes "ProductA" := by
    norm_num [cfgHalf, mkCfg, defaultMachineCfg]
  have h3 : ¬cfgHalf.rand 0 (msRun0.machines 0).rngIdx <
      (cfgHalf.machine 0).breakdownProbability := by
    norm_num [cfgHalf, mkCfg, defaultMachineCfg]
  exact ⟨h1, h2, h3, completion_after_deadline cfgHalf 0 "ProductA" msRun0 h1 h2 h3⟩

theorem startProcessing_cntP_nonunit (cfg : Cfg) (m : Fin 5) (p : Product) (se : ℚ)
    (s : MSState) (f : Act → Bool)
    (hfr : ∀ m2 p2 se2, f (Act.retry m2 p2 se2) = false)
    (hfc : ∀ m2 p2, f (Act.complete m2 p2) = false) :
    cntP (startProcessing cfg m p se s).sim.eventQueue f = cntP s.sim.eventQueue f := by
  rcases startProcessing_cases cfg m p se s with heq | ⟨_, _, a, t, ha, heq⟩ <;> rw [heq]
  rcases ha with ⟨rfl, _⟩ | ⟨rfl, _⟩ <;>
    show cntP (heapPush s.sim.eventQueue _) f = _
  · rw [cntP_heapPush]
    simp [hfr]
  · rw [cntP_heapPush]
    simp [hfc]

theorem startProduction_cntP_nonunit (cfg : Cfg) (s : MSState) (f : Act → Bool)
    (hfr : ∀ m2 p2 se2, f (Act.retry m2 p2 se2) = false)
    (hfc : ∀ m2 p2, f (Act.complete m2 p2) = false) :
    cntP (startProduction cfg s).sim.eventQueue f = cntP s.sim.eventQueue f := by
  rcases startProduction_cases cfg s with ⟨_, heq⟩ | ⟨p, rest, _, heq⟩ <;> rw [heq]
  exact startProcessing_cntP_nonunit cfg 0 p s.shiftEndTime _ f hfr hfc

theorem finishProduct_cntP_nonunit (cfg : Cfg) (p : Product) (s : MSState) (f : Act → Bool)
    (hfr : ∀ m2 p2 se2, f (Act.retry m2 p2 se2) = false)
    (hfc : ∀ m2 p2, f (Act.complete m2 p2) = false) :
    cntP (finishProduct cfg p s).sim.eventQueue f = cntP s.sim.eventQueue f := by
  unfold finishProduct
  dsimp only
  split
  · exact startProduction_cntP_nonunit cfg _ f hfr hfc
  · rfl

theorem onComplete_cntP_nonunit (cfg : Cfg) (m : Fin 5) (p : Product) (s : MSState)
    (f : Act → Bool)
    (hfr : ∀ m2 p2 se2, f (Act.retry m2 p2 se2) = false)
    (hfc : ∀ m2 p2, f (Act.complete m2 p2) = false) :
    cntP (onComplete cfg m p s).sim.eventQueue f = cntP s.sim.eventQueue f := by
  unfold onComplete
  split
  · exact startProcessing_cntP_nonunit cfg _ p s.shiftEndTime s f hfr hfc
  · exact finishProduct_cntP_nonunit cfg p s f hfr hfc

theorem isStartAct_le_isShiftAct (q : List (Evt Act)) :
    cntP q isStartAct ≤ cntP q isShiftAct := by
  unfold cntP
  apply List.countP_mono_left
  intro e _ he
  cases ha : e.act <;> simp [isStartAct, ha] at he ⊢ <;> simp [isShiftAct]

theorem step_eq_none (cfg : Cfg) (s : MSState) (hq : s.sim.eventQueue[0]? = none) :
    step cfg s = s := by
  unfold step
  rw [hq]

theorem step_eq_some (cfg : Cfg) (s : MSState) (e : Evt Act)
    (hq : s.sim.eventQueue[0]? = some e) :
    step cfg s = execAct cfg e.act
      { s with sim := { currentTime := e.time, eventQueue := heapPopRest s.sim.eventQueue } } := by
  unfold step
  rw [hq]

theorem shiftInv_step (cfg : Cfg) (s : MSState) (h : ShiftInv cfg s) :
    ShiftInv cfg (step cfg s) := by
  obtain ⟨h1, h2, h3⟩ := h
  match hq : s.sim.eventQueue[0]? with
  | none => rw [step_eq_none cfg s hq]; exact ⟨h1, h2, h3⟩
  | some e =>
    rw [step_eq_some cfg s e hq]
    set s2 : MSState := { s with sim :=
      { currentTime := e.time, eventQueue := heapPopRest s.sim.eventQueue } } with hs2
    have hcS := cntP_heapPopRest s.sim.eventQueue e isShiftAct hq
    have hcA := cntP_heapPopRest s.sim.eventQueue e isStartAct hq
    have hmono := isStartAct_le_isShiftAct s.sim.eventQueue
    have hq2 : s2.sim.eventQueue = heapPopRest s.sim.eventQueue := rfl
    have hsh2 : s2.currentShift = s.currentShift := rfl
    cases ha : e.act with
    | startShift =>
      rw [ha] at hcS hcA
      have hcS2 : cntP s.sim.eventQueue isShiftAct =
          cntP (heapPopRest s.sim.eventQueue) isShiftAct + 1 := by rw [hcS]; rfl
      have hcA2 : cntP s.sim.eventQueue isStartAct =
          cntP (heapPopRest s.sim.eventQueue) isStartAct + 1 := by rw [hcA]; rfl
      simp only [execAct]
      have hssS : cntP (startShift cfg s2).sim.eventQueue isShiftAct =
          cntP (heapPopRest s.sim.eventQueue) isShiftAct + 1 := by
        unfold startShift
        dsimp only
        rw [startProduction_cntP_nonunit _ _ _ (fun _ _ _ => rfl) (fun _ _ => rfl)]
        show cntP (heapPush (heapPopRest s.sim.eventQueue) _) isShiftAct = _
        rw [cntP_heapPush]
        rfl
      have hssA : cntP (startShift cfg s2).sim.eventQueue isStartAct =
          cntP (heapPopRest s.sim.eventQueue) isStartAct := by
        unfold startShift
        dsimp only
        rw [startProduction_cntP_nonunit _ _ _ (fun _ _ _ => rfl) (fun _ _ => rfl)]
        show cntP (heapPush (heapPopRest s.sim.eventQueue) _) isStartAct = _
        rw [cntP_heapPush]
        rfl
      have hssSh : (startShift cfg s2).currentShift = s2.currentShift + 1 := by
        unfold startShift
        dsimp only
        rw [startProduction_shift]
      have hlt : s.currentShift < cfg.shiftCount := h2 (by omega)
      have := isStartAct_le_isShiftAct (heapPopRest s.sim.eventQueue)
      refine ⟨?_, ?_, ?_⟩
      · rw [hssS]
        omega
      · rw [hssA, hssSh, hsh2]
        intro hpos
        omega
      · rw [hssSh, hsh2]
        omega
    | endShift =>
      rw [ha] at hcS hcA
      have hcS2 : cntP s.sim.eventQueue isShiftAct =
          cntP (heapPopRest s.sim.eventQueue) isShiftAct + 1 := by rw [hcS]; rfl
      have hcA2 : cntP s.sim.eventQueue isStartAct =
          cntP (heapPopRest s.sim.eventQueue) isStartAct := by rw [hcA]; rfl
      simp only [execAct]
      unfold endShift
      split
      · next hlt =>
        have hq3 : cntP (scheduleEvent s2.sim s2.sim.currentTime Act.startShift).eventQueue
            isShiftAct = cntP (heapPopRest s.sim.eventQueue) isShiftAct + 1 := by
          show cntP (heapPush (heapPopRest s.sim.eventQueue) _) isShiftAct = _
          rw [cntP_heapPush]
          rfl
        refine ⟨?_, ?_, ?_⟩
        · rw [show (({ s2 with sim := scheduleEvent s2.sim s2.sim.currentTime Act.startShift } :
            MSState)).sim.eventQueue =
              (scheduleEvent s2.sim s2.sim.currentTime Act.startShift).eventQueue from rfl, hq3]
          omega
        · intro _
          rw [hsh2] at hlt
          exact hlt
        · rw [hsh2]
          exact h3
      · next hge =>
        refine ⟨?_, ?_, ?_⟩
        · rw [hq2]
          omega
        · intro hpos
          rw [hq2] at hpos
          exact h2 (by omega)
        · rw [hsh2]
          exact h3
    | complete m p =>
      rw [ha] at hcS hcA
      have hcS2 : cntP s.sim.eventQueue isShiftAct =
          cntP (heapPopRest s.sim.eventQueue) isShiftAct := by rw [hcS]; rfl
      have hcA2 : cntP s.sim.eventQueue isStartAct =
          cntP (heapPopRest s.sim.eventQueue) isStartAct := by rw [hcA]; rfl
      simp only [execAct]
      have hocS := onComplete_cntP_nonunit cfg m p (setIdle m s2) isShiftAct
        (fun _ _ _ => rfl) (fun _ _ => rfl)
      have hocA := onComplete_cntP_nonunit cfg m p (setIdle m s2) isStartAct
        (fun _ _ _ => rfl) (fun _ _ => rfl)
      have hocSh := onComplete_shift cfg m p (setIdle m s2)
      have hsetq : (setIdle m s2).sim.eventQueue = heapPopRest s.sim.eventQueue := rfl
      have hsetsh : (setIdle m s2).currentShift = s.currentShift := rfl
      refine ⟨?_, ?_, ?_⟩
      · rw [hocS, hsetq]
        omega
      · rw [hocA, hocSh, hsetq, hsetsh]
        intro hpos
        exact h2 (by omega)
      · rw [hocSh, hsetsh]
        exact h3
    | retry m p se =>
      rw [ha] at hcS hcA
      have hcS2 : cntP s.sim.eventQueue isShiftAct =
          cntP (heapPopRest s.sim.eventQueue) isShiftAct := by rw [hcS]; rfl
      have hcA2 : cntP s.sim.eventQueue isStartAct =
          cntP (heapPopRest s.sim.eventQueue) isStartAct := by rw [hcA]; rfl
      simp only [execAct]
      have hspS := startProcessing_cntP_nonunit cfg m p se s2 isShiftAct
        (fun _ _ _ => rfl) (fun _ _ => rfl)
      have hspA := startProcessing_cntP_nonunit cfg m p se s2 isStartAct
        (fun _ _ _ => rfl) (fun _ _ => rfl)
      have hspSh := startProcessing_shift cfg m p se s2
      refine ⟨?_, ?_, ?_⟩
      · rw [hspS, hq2]
        omega
      · rw [hspA, hspSh, hq2, hsh2]
        intro hpos
        exact h2 (by omega)
      · rw [hspSh, hsh2]
        exact h3

theorem shiftInv_msRun0 (cfg : Cfg) (hc : 1 ≤ cfg.shiftCount) : ShiftInv cfg msRun0 := by
  have hq : msRun0.sim.eventQueue = [⟨0, Act.startShift⟩] := rfl
  refine ⟨?_, ?_, ?_⟩
  · rw [hq]
    decide
  · intro _
    show (0 : ℤ) < cfg.shiftCount
    omega
  · show (0 : ℤ) ≤ cfg.shiftCount
    omega

/-- C5: shift progression is a correct bounded counter: `startShift`
increments `currentShift` by exactly 1; `endShift` schedules the next
`start_shift` at the current time (back-to-back) exactly when
`currentShift < shiftCount` and otherwise only reports; and along any run
with at least one shift, `currentShift` never exceeds `shiftCount`. -/
theorem shift_counter_correct (cfg : Cfg) :
    (∀ s, (startShift cfg s).currentShift = s.currentShift + 1) ∧
    (∀ s, s.currentShift < cfg.shiftCount →
      endShift cfg s = { s with sim := scheduleEvent s.sim s.sim.currentTime Act.startShift }) ∧
    (∀ s, ¬s.currentShift < cfg.shiftCount → endShift cfg s = s) ∧
    (1 ≤ cfg.shiftCount → ∀ n, (stepN cfg n msRun0).currentShift ≤ cfg.shiftCount) := by
  refine ⟨?_, ?_, ?_, ?_⟩
  · intro s
    unfold startShift
    dsimp only
    rw [startProduction_shift]
  · intro s h
    unfold endShift
    rw [if_pos h]
  · intro s h
    unfold endShift
    rw [if_neg h]
  · intro hc n
    have hinv : ∀ k, ShiftInv cfg (stepN cfg k msRun0) := by
      intro k
      induction k with
      | zero => exact shiftInv_msRun0 cfg hc
      | succ k ih =>
        rw [stepN_succ_outer]
        exact shiftInv_step cfg _ ih
    exact (hinv n).2.2

/-- Witness for C5 at the concrete configuration `cfgBreak` (one shift). -/
theorem shift_counter_correct_witness :
    (startShift cfgBreak msRun0).currentShift = msRun0.currentShift + 1 ∧
    msRun0.currentShift < cfgBreak.shiftCount ∧
    endShift cfgBreak msRun0 =
      { msRun0 with sim := scheduleEvent msRun0.sim msRun0.sim.currentTime Act.startShift } ∧
    (1 : ℤ) ≤ cfgBreak.shiftCount ∧
    (stepN cfgBreak 2 msRun0).currentShift ≤ cfgBreak.shiftCount := by
  have hlt : msRun0.currentShift < cfgBreak.shiftCount := by
    show (0 : ℤ) < 1
    norm_num
  have hc : (1 : ℤ) ≤ cfgBreak.shiftCount := by
    show (1 : ℤ) ≤ 1
    norm_num
  exact ⟨(shift_counter_correct cfgBreak).1 msRun0, hlt,
    (shift_counter_correct cfgBreak).2.1 msRun0 hlt, hc,
    (shift_counter_correct cfgBreak).2.2.2 hc 2⟩

theorem startProcessing_rand_eq (d c : ℤ) (mc : Fin 5 → MachineCfg)
    (r1 r2 : Fin 5 → ℕ → ℚ) (hp : ∀ m2, (mc m2).breakdownProbability = 0)
    (h1 : ∀ m2 k, 0 ≤ r1 m2 k) (h2 : ∀ m2 k, 0 ≤ r2 m2 k)
    (m : Fin 5) (p : Product) (se : ℚ) (s : MSState) :
    startProcessing ⟨d, c, mc, r1⟩ m p se s = startProcessing ⟨d, c, mc, r2⟩ m p se s := by
  by_cases hbusy : (s.machines m).isBusy = true
  · rw [startProcessing_busy _ _ _ _ _ hbusy, startProcessing_busy _ _ _ _ _ hbusy]
  · by_cases hrange : s.sim.currentTime + (mc m).processTimes p > se
    · rw [startProcessing_reject ⟨d, c, mc, r1⟩ m p se s hrange,
        startProcessing_reject ⟨d, c, mc, r2⟩ m p se s hrange]
    · have hb : (s.machines m).isBusy = false := by simpa using hbusy
      have hnb1 : ¬(⟨d, c, mc, r1⟩ : Cfg).rand m (s.machines m).rngIdx <
          ((⟨d, c, mc, r1⟩ : Cfg).machine m).breakdownProbability := by
        show ¬r1 m (s.machines m).rngIdx < (mc m).breakdownProbability
        rw [hp m]
        exact not_lt.mpr (h1 m _)
      have hnb2 : ¬(⟨d, c, mc, r2⟩ : Cfg).rand m (s.machines m).rngIdx <
          ((⟨d, c, mc, r2⟩ : Cfg).machine m).breakdownProbability := by
        show ¬r2 m (s.machines m).rngIdx < (mc m).breakdownProbability
        rw [hp m]
        exact not_lt.mpr (h2 m _)
      rw [startProcessing_accept ⟨d, c, mc, r1⟩ m p se s hb hrange hnb1,
        startProcessing_accept ⟨d, c, mc, r2⟩ m p se s hb hrange hnb2]

theorem startProduction_rand_eq (d c : ℤ) (mc : Fin 5 → MachineCfg)
    (r1 r2 : Fin 5 → ℕ → ℚ) (hp : ∀ m2, (mc m2).breakdownProbability = 0)
    (h1 : ∀ m2 k, 0 ≤ r1 m2 k) (h2 : ∀ m2 k, 0 ≤ r2 m2 k) (s : MSState) :
    startProduction ⟨d, c, mc, r1⟩ s = startProduction ⟨d, c, mc, r2⟩ s := by
  rcases startProduction_cases ⟨d, c, mc, r1⟩ s with ⟨hnil, heq1⟩ | ⟨p, rest, hq1, heq1⟩
  · rcases startProduction_cases ⟨d, c, mc, r2⟩ s with ⟨_, heq2⟩ | ⟨p2, rest2, hq2, _⟩
    · rw [heq1, heq2]
    · rw [hnil] at hq2
      exact absurd hq2 (by simp)
  · rcases startProduction_cases ⟨d, c, mc, r2⟩ s with ⟨hnil, _⟩ | ⟨p2, rest2, hq2, heq2⟩
    · rw [hnil] at hq1
      exact absurd hq1 (by simp)
    · rw [hq1] at hq2
      obtain ⟨rfl, rfl⟩ := List.cons.inj hq2
      rw [heq1, heq2]
      exact startProcessing_rand_eq d c mc r1 r2 hp h1 h2 0 p s.shiftEndTime _

theorem finishProduct_rand_eq (d c : ℤ) (mc : Fin 5 → MachineCfg)
    (r1 r2 : Fin 5 → ℕ → ℚ) (hp : ∀ m2, (mc m2).breakdownProbability = 0)
    (h1 : ∀ m2 k, 0 ≤ r1 m2 k) (h2 : ∀ m2 k, 0 ≤ r2 m2 k) (p : Product) (s : MSState) :
    finishProduct ⟨d, c, mc, r1⟩ p s = finishProduct ⟨d, c, mc, r2⟩ p s := by
  unfold finishProduct
  dsimp only
  by_cases hlt : s.sim.currentTime < s.shiftEndTime
  · rw [if_pos hlt, if_pos hlt]
    exact startProduction_rand_eq d c mc r1 r2 hp h1 h2 _
  · rw [if_neg hlt, if_neg hlt]

theorem onComplete_rand_eq (d c : ℤ) (mc : Fin 5 → MachineCfg)
    (r1 r2 : Fin 5 → ℕ → ℚ) (hp : ∀ m2, (mc m2).breakdownProbability = 0)
    (h1 : ∀ m2 k, 0 ≤ r1 m2 k) (h2 : ∀ m2 k, 0 ≤ r2 m2 k)
    (m : Fin 5) (p : Product) (s : MSState) :
    onComplete ⟨d, c, mc, r1⟩ m p s = onComplete ⟨d, c, mc, r2⟩ m p s := by
  unfold onComplete
  split
  · exact startProcessing_rand_eq d c mc r1 r2 hp h1 h2 _ p s.shiftEndTime s
  · exact finishProduct_rand_eq d c mc r1 r2 hp h1 h2 p s

theorem startShift_rand_eq (d c : ℤ) (mc : Fin 5 → MachineCfg)
    (r1 r2 : Fin 5 → ℕ → ℚ) (hp : ∀ m2, (mc m2).breakdownProbability = 0)
    (h1 : ∀ m2 k, 0 ≤ r1 m2 k) (h2 : ∀ m2 k, 0 ≤ r2 m2 k) (s : MSState) :
    startShift ⟨d, c, mc, r1⟩ s = startShift ⟨d, c, mc, r2⟩ s := by
  unfold startShift
  dsimp only
  exact startProduction_rand_eq d c mc r1 r2 hp h1 h2 _

theorem endShift_rand_eq (d c : ℤ) (mc : Fin 5 → MachineCfg)
    (r1 r2 : Fin 5 → ℕ → ℚ) (s : MSState) :
    endShift ⟨d, c, mc, r1⟩ s = endShift ⟨d, c, mc, r2⟩ s := by
  unfold endShift
  dsimp only

theorem execAct_rand_eq (d c : ℤ) (mc : Fin 5 → MachineCfg)
    (r1 r2 : Fin 5 → ℕ → ℚ) (hp : ∀ m2, (mc m2).breakdownProbability = 0)
    (h1 : ∀ m2 k, 0 ≤ r1 m2 k) (h2 : ∀ m2 k, 0 ≤ r2 m2 k) (a : Act) (s : MSState) :
    execAct ⟨d, c, mc, r1⟩ a s = execAct ⟨d, c, mc, r2⟩ a s := by
  cases a with
  | startShift => exact startShift_rand_eq d c mc r1 r2 hp h1 h2 s
  | endShift => exact endShift_rand_eq d c mc r1 r2 s
  | complete m p =>
    simp only [execAct]
    exact onComplete_rand_eq d c mc r1 r2 hp h1 h2 m p _
  | retry m p se => exact startProcessing_rand_eq d c mc r1 r2 hp h1 h2 m p se s

theorem step_rand_eq (d c : ℤ) (mc : Fin 5 → MachineCfg)
    (r1 r2 : Fin 5 → ℕ → ℚ) (hp : ∀ m2, (mc m2).breakdownProbability = 0)
    (h1 : ∀ m2 k, 0 ≤ r1 m2 k) (h2 : ∀ m2 k, 0 ≤ r2 m2 k) (s : MSState) :
    step ⟨d, c, mc, r1⟩ s = step ⟨d, c, mc, r2⟩ s := by
  match hq : s.sim.eventQueue[0]? with
  | none => rw [step_eq_none _ s hq, step_eq_none _ s hq]
  | some e =>
    rw [step_eq_some _ s e hq, step_eq_some _ s e hq]
    exact execAct_rand_eq d c mc r1 r2 hp h1 h2 e.act _

theorem stepN_rand_eq (d c : ℤ) (mc : Fin 5 → MachineCfg)
    (r1 r2 : Fin 5 → ℕ → ℚ) (hp : ∀ m2, (mc m2).breakdownProbability = 0)
    (h1 : ∀ m2 k, 0 ≤ r1 m2 k) (h2 : ∀ m2 k, 0 ≤ r2 m2 k) (n : ℕ) (s : MSState) :
    stepN ⟨d, c, mc, r1⟩ n s = stepN ⟨d, c, mc, r2⟩ n s := by
  induction n generalizing s with
  | zero => rfl
  | succ n ih =>
    show stepN _ n (step _ s) = stepN _ n (step _ s)
    rw [step_rand_eq d c mc r1 r2 hp h1 h2 s]
    exact ih (step ⟨d, c, mc, r2⟩ s)

theorem isUnitAct_retry (m2 m : Fin 5) (p : Product) (se : ℚ) :
    isUnitAct m2 (Act.retry m p se) = decide (m = m2) := rfl

theorem isUnitAct_complete (m2 m : Fin 5) (p : Product) :
    isUnitAct m2 (Act.complete m p) = decide (m = m2) := rfl

theorem cnt_unit_push (q : List (Evt Act)) (t : ℚ) (a : Act) (m m2 : Fin 5)
    (ha : a = Act.retry m2 p2 se2 ∨ a = Act.complete m2 p2) :
    cntP (heapPush q ⟨t, a⟩) (isUnitAct m) =
      cntP q (isUnitAct m) + (if m2 = m then 1 else 0) := by
  rcases ha with rfl | rfl <;>
  · rw [cntP_heapPush]
    by_cases hm : m2 = m
    · simp [hm, isUnitAct_retry, isUnitAct_complete]
    · simp [hm, isUnitAct_retry, isUnitAct_complete]

theorem cnt_any_push_unit (q : List (Evt Act)) (t : ℚ) (a : Act) (m2 : Fin 5)
    (ha : a = Act.retry m2 p2 se2 ∨ a = Act.complete m2 p2) :
    cntP (heapPush q ⟨t, a⟩) isAnyUnitAct = cntP q isAnyUnitAct + 1 := by
  rcases ha with rfl | rfl <;> rw [cntP_heapPush] <;> rfl

theorem consInv_startProduction (cfg : Cfg) (s : MSState) (h : ConsInv s) :
    ConsInv (startProduction cfg s) := by
  obtain ⟨h1, h2, h3, h4, h5⟩ := h
  rcases startProduction_cases cfg s with ⟨_, heq⟩ | ⟨p, rest, hq, heq⟩
  · rw [heq]
    exact ⟨h1, h2, h3, h4, h5⟩
  · rw [heq]
    have hlen : rest.length + 1 = s.productQueue.length := by
      rw [hq]
      rfl
    rcases startProcessing_cases cfg 0 p s.shiftEndTime { s with productQueue := rest }
      with heq2 | ⟨hb, hr, a, t, ha, heq2⟩
    · rw [heq2]
      refine ⟨h1, h2, h3, h4, ?_⟩
      show (s.machines 0).acceptedCount + rest.length ≤ initialBacklog.length
      omega
    · rw [heq2]
      have hb2 : (s.machines 0).isBusy = false := hb
      have ha2 : a = Act.retry 0 p s.shiftEndTime ∨ a = Act.complete 0 p := by
        rcases ha with ⟨haa, _⟩ | ⟨haa, _⟩
        · exact Or.inl haa
        · exact Or.inr haa
      have hU0 : cntP s.sim.eventQueue (isUnitAct 0) = 0 := by
        by_contra hne
        have hbt := h2 0 (Nat.pos_of_ne_zero hne)
        rw [hbt] at hb2
        exact absurd hb2 (by simp)
      refine ⟨?_, ?_, ?_, ?_, ?_⟩
      · intro m
        show cntP (heapPush s.sim.eventQueue ⟨t, a⟩) (isUnitAct m) ≤ 1
        rw [cnt_unit_push s.sim.eventQueue t a m 0 ha2]
        by_cases hm : (0 : Fin 5) = m
        · rw [if_pos hm, ← hm, hU0]
        · rw [if_neg hm]
          have := h1 m
          omega
      · intro m
        show 0 < cntP (heapPush s.sim.eventQueue ⟨t, a⟩) (isUnitAct m) →
          (Function.update s.machines 0
            ⟨true, (s.machines 0).rngIdx + 1, (s.machines 0).acceptedCount + 1⟩ m).isBusy = true
        rw [cnt_unit_push s.sim.eventQueue t a m 0 ha2]
        by_cases hm : m = 0
        · rw [hm, Function.update_same]
          intro _
          rfl
        · rw [Function.update_noteq hm, if_neg (fun hc => hm hc.symm)]
          intro hpos
          exact h2 m (by omega)
      · exact h3
      · show s.productsCompleted +
            (cntP (heapPush s.sim.eventQueue ⟨t, a⟩) isAnyUnitAct : ℤ) ≤
          ((Function.update s.machines 0
            ⟨true, (s.machines 0).rngIdx + 1, (s.machines 0).acceptedCount + 1⟩ 0).acceptedCount : ℤ)
        rw [cnt_any_push_unit s.sim.eventQueue t a 0 ha2, Function.update_same]
        push_cast
        omega
      · show (Function.update s.machines 0
            ⟨true, (s.machines 0).rngIdx + 1, (s.machines 0).acceptedCount + 1⟩ 0).acceptedCount +
            rest.length ≤ initialBacklog.length
        rw [Function.update_same]
        show (s.machines 0).acceptedCount + 1 + rest.length ≤ initialBacklog.length
        omega

theorem cnt_unit_push_shift (q : List (Evt Act)) (t : ℚ) (a : Act)
    (ha : a = Act.startShift ∨ a = Act.endShift) (m : Fin 5) :
    cntP (heapPush q ⟨t, a⟩) (isUnitAct m) = cntP q (isUnitAct m) := by
  rcases ha with rfl | rfl <;> rw [cntP_heapPush] <;> rfl

theorem cnt_any_push_shift (q : List (Evt Act)) (t : ℚ) (a : Act)
    (ha : a = Act.startShift ∨ a = Act.endShift) :
    cntP (heapPush q ⟨t, a⟩) isAnyUnitAct = cntP q isAnyUnitAct := by
  rcases ha with rfl | rfl <;> rw [cntP_heapPush] <;> rfl

theorem consInv_step (cfg : Cfg) (s : MSState) (h : ConsInv s) : ConsInv (step cfg s) := by
  obtain ⟨h1, h2, h3, h4, h5⟩ := h
  match hq : s.sim.eventQueue[0]? with
  | none =>
    rw [step_eq_none cfg s hq]
    exact ⟨h1, h2, h3, h4, h5⟩
  | some e =>
    rw [step_eq_some cfg s e hq]
    set s2 : MSState := { s with sim :=
      { currentTime := e.time, eventQueue := heapPopRest s.sim.eventQueue } } with hs2
    have hcU := fun m => cntP_heapPopRest s.sim.eventQueue e (isUnitAct m) hq
    have hcA := cntP_heapPopRest s.sim.eventQueue e isAnyUnitAct hq
    have hUle : ∀ m, cntP (heapPopRest s.sim.eventQueue) (isUnitAct m) ≤
        cntP s.sim.eventQueue (isUnitAct m) := by
      intro m
      rw [hcU m]
      omega
    cases ha : e.act with
    | startShift =>
      rw [ha] at hcU hcA
      have hcU2 : ∀ m, cntP (heapPopRest s.sim.eventQueue) (isUnitAct m) =
          cntP s.sim.eventQueue (isUnitAct m) := by
        intro m
        rw [hcU m]
        rfl
      have hcA2 : cntP (heapPopRest s.sim.eventQueue) isAnyUnitAct =
          cntP s.sim.eventQueue isAnyUnitAct := by
        rw [hcA]
        rfl
      simp only [execAct]
      unfold startShift
      dsimp only
      apply consInv_startProduction
      refine ⟨?_, ?_, h3, ?_, ?_⟩
      · intro m
        show cntP (heapPush (heapPopRest s.sim.eventQueue) _) (isUnitAct m) ≤ 1
        rw [cnt_unit_push_shift _ _ _ (Or.inr rfl) m, hcU2 m]
        exact h1 m
      · intro m
        show 0 < cntP (heapPush (heapPopRest s.sim.eventQueue) _) (isUnitAct m) →
          (s.machines m).isBusy = true
        rw [cnt_unit_push_shift _ _ _ (Or.inr rfl) m, hcU2 m]
        exact h2 m
      · show s.productsCompleted +
            (cntP (heapPush (heapPopRest s.sim.eventQueue) _) isAnyUnitAct : ℤ) ≤
          ((s.machines 0).acceptedCount : ℤ)
        rw [cnt_any_push_shift _ _ _ (Or.inr rfl), hcA2]
        exact h4
      · exact h5
    | endShift =>
      rw [ha] at hcU hcA
      have hcU2 : ∀ m, cntP (heapPopRest s.sim.eventQueue) (isUnitAct m) =
          cntP s.sim.eventQueue (isUnitAct m) := by
        intro m
        rw [hcU m]
        rfl
      have hcA2 : cntP (heapPopRest s.sim.eventQueue) isAnyUnitAct =
          cntP s.sim.eventQueue isAnyUnitAct := by
        rw [hcA]
        rfl
      simp only [execAct]
      unfold endShift
      split
      · refine ⟨?_, ?_, h3, ?_, ?_⟩
        · intro m
          show cntP (heapPush (heapPopRest s.sim.eventQueue) _) (isUnitAct m) ≤ 1
          rw [cnt_unit_push_shift _ _ _ (Or.inl rfl) m, hcU2 m]
          exact h1 m
        · intro m
          show 0 < cntP (heapPush (heapPopRest s.sim.eventQueue) _) (isUnitAct m) →
            (s.machines m).isBusy = true
          rw [cnt_unit_push_shift _ _ _ (Or.inl rfl) m, hcU2 m]
          exact h2 m
        · show s.productsCompleted +
              (cntP (heapPush (heapPopRest s.sim.eventQueue) _) isAnyUnitAct : ℤ) ≤
            ((s.machines 0).acceptedCount : ℤ)
          rw [cnt_any_push_shift _ _ _ (Or.inl rfl), hcA2]
          exact h4
        · exact h5
      · refine ⟨?_, ?_, h3, ?_, ?_⟩
        · intro m
          show cntP (heapPopRest s.sim.eventQueue) (isUnitAct m) ≤ 1
          rw [hcU2 m]
          exact h1 m
        · intro m
          show 0 < cntP (heapPopRest s.sim.eventQueue) (isUnitAct m) →
            (s.machines m).isBusy = true
          rw [hcU2 m]
          exact h2 m
        · show s.productsCompleted +
              (cntP (heapPopRest s.sim.eventQueue) isAnyUnitAct : ℤ) ≤
            ((s.machines 0).acceptedCount : ℤ)
          rw [hcA2]
          exact h4
        · exact h5
    | complete m p =>
      rw [ha] at hcU hcA
      have hcUm : cntP s.sim.eventQueue (isUnitAct m) =
          cntP (heapPopRest s.sim.eventQueue) (isUnitAct m) + 1 := by
        rw [hcU m, isUnitAct_complete]
        simp
      have hcUne : ∀ m2, m2 ≠ m → cntP (heapPopRest s.sim.eventQueue) (isUnitAct m2) =
          cntP s.sim.eventQueue (isUnitAct m2) := by
        intro m2 hne
        rw [hcU m2, isUnitAct_complete]
        simp [Ne.symm hne]
      have hcA2 : cntP s.sim.eventQueue isAnyUnitAct =
          cntP (heapPopRest s.sim.eventQueue) isAnyUnitAct + 1 := by
        rw [hcA]
        rfl
      have hUm0 : cntP (heapPopRest s.sim.eventQueue) (isUnitAct m) = 0 := by
        have := h1 m
        omega
      simp only [execAct]
      set s3 : MSState := setIdle m s2 with hs3
      have hq3 : s3.sim.eventQueue = heapPopRest s.sim.eventQueue := rfl
      have hmach3 : ∀ m2, m2 ≠ m → s3.machines m2 = s.machines m2 := by
        intro m2 hne
        show Function.update s2.machines m _ m2 = s.machines m2
        rw [Function.update_noteq hne]
      have hacc3 : (s3.machines 0).acceptedCount = (s.machines 0).acceptedCount := by
        show (Function.update s2.machines m _ 0).acceptedCount = _
        rw [Function.update_apply]
        split
        · next h0 =>
          rw [h0]
        · rfl
      have hcc3 : s3.productsCompleted = s.productsCompleted := rfl
      have hbl3 : s3.productQueue = s.productQueue := rfl
      -- the invariant at s3, with one unit of slack in the flow inequality
      have hs3inv : (∀ m2, cntP s3.sim.eventQueue (isUnitAct m2) ≤ 1) ∧
          (∀ m2, 0 < cntP s3.sim.eventQueue (isUnitAct m2) → (s3.machines m2).isBusy = true) ∧
          s3.productsCompleted + (cntP s3.sim.eventQueue isAnyUnitAct : ℤ) + 1 ≤
            ((s3.machines 0).acceptedCount : ℤ) := by
        refine ⟨?_, ?_, ?_⟩
        · intro m2
          rw [hq3]
          have := h1 m2
          have := hUle m2
          omega
        · intro m2
          rw [hq3]
          by_cases hne : m2 = m
          · rw [hne, hUm0]
            omega
          · rw [hcUne m2 hne, hmach3 m2 hne]
            exact h2 m2
        · rw [hq3, hcc3, hacc3]
          omega
      obtain ⟨k1, k2, k4⟩ := hs3inv
      unfold onComplete
      split
      · next hm4 =>
        -- hand the unit to machine m+1
        rcases startProcessing_cases cfg ⟨m.val + 1, by omega⟩ p s3.shiftEndTime s3
          with heq2 | ⟨hb, hr, a, t, ha2, heq2⟩
        · rw [heq2]
          have e1 : cntP s3.sim.eventQueue isAnyUnitAct =
              cntP (heapPopRest s.sim.eventQueue) isAnyUnitAct := rfl
          have c4 : s3.productsCompleted + (cntP s3.sim.eventQueue isAnyUnitAct : ℤ) ≤
              ((s3.machines 0).acceptedCount : ℤ) := by omega
          have c5 : (s3.machines 0).acceptedCount + s3.productQueue.length ≤
              initialBacklog.length := by
            rw [hacc3, hbl3]
            exact h5
          exact ⟨k1, k2, h3, c4, c5⟩
        · rw [heq2]
          have ha3 : a = Act.retry ⟨m.val + 1, by omega⟩ p s3.shiftEndTime ∨
              a = Act.complete ⟨m.val + 1, by omega⟩ p := by
            rcases ha2 with ⟨haa, _⟩ | ⟨haa, _⟩
            · exact Or.inl haa
            · exact Or.inr haa
          have hnem : (⟨m.val + 1, by omega⟩ : Fin 5) ≠ m := by
            intro hc
            have hv : m.val + 1 = m.val := congrArg Fin.val hc
            omega
          have hUnext : cntP s3.sim.eventQueue (isUnitAct ⟨m.val + 1, by omega⟩) = 0 := by
            by_contra hne
            have hbt := k2 _ (Nat.pos_of_ne_zero hne)
            rw [hbt] at hb
            exact absurd hb (by simp)
          refine ⟨?_, ?_, h3, ?_, ?_⟩
          · intro m2
            show cntP (heapPush s3.sim.eventQueue ⟨t, a⟩) (isUnitAct m2) ≤ 1
            rw [cnt_unit_push s3.sim.eventQueue t a m2 _ ha3]
            by_cases hm2 : (⟨m.val + 1, by omega⟩ : Fin 5) = m2
            · rw [if_pos hm2, ← hm2, hUnext]
            · rw [if_neg hm2]
              have := k1 m2
              omega
          · intro m2
            show 0 < cntP (heapPush s3.sim.eventQueue ⟨t, a⟩) (isUnitAct m2) →
              (Function.update s3.machines ⟨m.val + 1, by omega⟩ _ m2).isBusy = true
            rw [cnt_unit_push s3.sim.eventQueue t a m2 _ ha3]
            by_cases hm2 : m2 = ⟨m.val + 1, by omega⟩
            · rw [hm2, Function.update_same]
              intro _
              rfl
            · rw [Function.update_noteq hm2, if_neg (fun hc => hm2 hc.symm)]
              intro hpos
              exact k2 m2 (by omega)
          · show s3.productsCompleted +
                (cntP (heapPush s3.sim.eventQueue ⟨t, a⟩) isAnyUnitAct : ℤ) ≤
              ((Function.update s3.machines ⟨m.val + 1, by omega⟩
                  ⟨true, (s3.machines ⟨m.val + 1, by omega⟩).rngIdx + 1,
                    (s3.machines ⟨m.val + 1, by omega⟩).acceptedCount + 1⟩
                  0).acceptedCount : ℤ)
            rw [cnt_any_push_unit s3.sim.eventQueue t a _ ha3]
            have h0ne : (0 : Fin 5) ≠ (⟨m.val + 1, by omega⟩ : Fin 5) := by
              intro hc
              have hv : (0 : ℕ) = m.val + 1 := congrArg Fin.val hc
              omega
            rw [Function.update_noteq h0ne]
            push_cast
            omega
          · show (Function.update s3.machines ⟨m.val + 1, by omega⟩
                  ⟨true, (s3.machines ⟨m.val + 1, by omega⟩).rngIdx + 1,
                    (s3.machines ⟨m.val + 1, by omega⟩).acceptedCount + 1⟩
                  0).acceptedCount +
                s3.productQueue.length ≤ initialBacklog.length
            have h0ne : (0 : Fin 5) ≠ (⟨m.val + 1, by omega⟩ : Fin 5) := by
              intro hc
              have hv : (0 : ℕ) = m.val + 1 := congrArg Fin.val hc
              omega
            rw [Function.update_noteq h0ne, hacc3, hbl3]
            exact h5
      · -- packaging machine: finish the product
        unfold finishProduct
        dsimp only
        have hs4inv : ConsInv { s3 with productsCompleted := s3.productsCompleted + 1 } := by
          have c3 : (0 : ℤ) ≤ s3.productsCompleted + 1 := by
            rw [hcc3]
            omega
          have c4 : s3.productsCompleted + 1 + (cntP s3.sim.eventQueue isAnyUnitAct : ℤ) ≤
              ((s3.machines 0).acceptedCount : ℤ) := by omega
          have c5 : (s3.machines 0).acceptedCount + s3.productQueue.length ≤
              initialBacklog.length := by
            rw [hacc3, hbl3]
            exact h5
          exact ⟨k1, k2, c3, c4, c5⟩
        split
        · exact consInv_startProduction cfg _ hs4inv
        · exact hs4inv
    | retry m p se =>
      rw [ha] at hcU hcA
      have hcUm : cntP s.sim.eventQueue (isUnitAct m) =
          cntP (heapPopRest s.sim.eventQueue) (isUnitAct m) + 1 := by
        rw [hcU m, isUnitAct_retry]
        simp
      have hcUne : ∀ m2, m2 ≠ m → cntP (heapPopRest s.sim.eventQueue) (isUnitAct m2) =
          cntP s.sim.eventQueue (isUnitAct m2) := by
        intro m2 hne
        rw [hcU m2, isUnitAct_retry]
        simp [Ne.symm hne]
      have hcA2 : cntP s.sim.eventQueue isAnyUnitAct =
          cntP (heapPopRest s.sim.eventQueue) isAnyUnitAct + 1 := by
        rw [hcA]
        rfl
      have hbusym : (s.machines m).isBusy = true := h2 m (by omega)
      simp only [execAct]
      rw [startProcessing_busy cfg m p se s2 hbusym]
      refine ⟨?_, ?_, h3, ?_, ?_⟩
      · intro m2
        show cntP (heapPopRest s.sim.eventQueue) (isUnitAct m2) ≤ 1
        have := h1 m2
        have := hUle m2
        omega
      · intro m2
        show 0 < cntP (heapPopRest s.sim.eventQueue) (isUnitAct m2) →
          (s.machines m2).isBusy = true
        by_cases hne : m2 = m
        · rw [hne]
          intro _
          exact hbusym
        · rw [hcUne m2 hne]
          exact h2 m2
      · show s.productsCompleted +
            (cntP (heapPopRest s.sim.eventQueue) isAnyUnitAct : ℤ) ≤
          ((s.machines 0).acceptedCount : ℤ)
        omega
      · exact h5

theorem consInv_msRun0 : ConsInv msRun0 := by
  have hU : ∀ m, cntP msRun0.sim.eventQueue (isUnitAct m) = 0 := fun m => rfl
  have hA : cntP msRun0.sim.eventQueue isAnyUnitAct = 0 := rfl
  refine ⟨?_, ?_, ?_, ?_, ?_⟩
  · intro m
    rw [hU m]
    omega
  · intro m hpos
    rw [hU m] at hpos
    omega
  · show (0 : ℤ) ≤ 0
    omega
  · rw [hA]
    show (0 : ℤ) + ((0 : ℕ) : ℤ) ≤ ((0 : ℕ) : ℤ)
    omega
  · have hacc : (msRun0.machines 0).acceptedCount = 0 := rfl
    have hpq : msRun0.productQueue = initialBacklog := rfl
    rw [hacc, hpq]
    omega

theorem startProduction_backlog_le (cfg : Cfg) (s : MSState) :
    (startProduction cfg s).productQueue.length ≤ s.productQueue.length := by
  rcases startProduction_cases cfg s with ⟨_, heq⟩ | ⟨p, rest, hq, heq⟩ <;> rw [heq]
  rw [startProcessing_backlog]
  show rest.length ≤ s.productQueue.length
  rw [hq]
  simp

theorem finishProduct_completed_ge (cfg : Cfg) (p : Product) (s : MSState) :
    s.productsCompleted ≤ (finishProduct cfg p s).productsCompleted := by
  unfold finishProduct
  dsimp only
  split
  · rw [startProduction_completed]
    show s.productsCompleted ≤ s.productsCompleted + 1
    omega
  · show s.productsCompleted ≤ s.productsCompleted + 1
    omega

theorem finishProduct_backlog_le (cfg : Cfg) (p : Product) (s : MSState) :
    (finishProduct cfg p s).productQueue.length ≤ s.productQueue.length := by
  unfold finishProduct
  dsimp only
  split
  · exact startProduction_backlog_le cfg _
  · exact le_refl _

theorem onComplete_completed_ge (cfg : Cfg) (m : Fin 5) (p : Product) (s : MSState) :
    s.productsCompleted ≤ (onComplete cfg m p s).productsCompleted := by
  unfold onComplete
  split
  · rw [startProcessing_completed]
  · exact finishProduct_completed_ge cfg p s

theorem onComplete_backlog_le (cfg : Cfg) (m : Fin 5) (p : Product) (s : MSState) :
    (onComplete cfg m p s).productQueue.length ≤ s.productQueue.length := by
  unfold onComplete
  split
  · rw [startProcessing_backlog]
  · exact finishProduct_backlog_le cfg p s

theorem step_completed_mono (cfg : Cfg) (s : MSState) :
    s.productsCompleted ≤ (step cfg s).productsCompleted := by
  match hq : s.sim.eventQueue[0]? with
  | none => rw [step_eq_none cfg s hq]
  | some e =>
    rw [step_eq_some cfg s e hq]
    cases e.act with
    | startShift =>
      show s.productsCompleted ≤ (startShift cfg _).productsCompleted
      unfold startShift
      dsimp only
      rw [startProduction_completed]
    | endShift =>
      show s.productsCompleted ≤ (endShift cfg _).productsCompleted
      unfold endShift
      split <;> exact le_refl _
    | complete m p =>
      show s.productsCompleted ≤ (onComplete cfg m p _).productsCompleted
      exact onComplete_completed_ge cfg m p _
    | retry m p se =>
      show s.productsCompleted ≤ (startProcessing cfg m p se _).productsCompleted
      rw [startProcessing_completed]

theorem step_backlog_mono (cfg : Cfg) (s : MSState) :
    (step cfg s).productQueue.length ≤ s.productQueue.length := by
  match hq : s.sim.eventQueue[0]? with
  | none => rw [step_eq_none cfg s hq]
  | some e =>
    rw [step_eq_some cfg s e hq]
    cases e.act with
    | startShift =>
      show (startShift cfg _).productQueue.length ≤ s.productQueue.length
      unfold startShift
      dsimp only
      exact startProduction_backlog_le cfg _
    | endShift =>
      show (endShift cfg _).productQueue.length ≤ s.productQueue.length
      unfold endShift
      split <;> exact le_refl _
    | complete m p =>
      show (onComplete cfg m p _).productQueue.length ≤ s.productQueue.length
      exact onComplete_backlog_le cfg m p _
    | retry m p se =>
      show (startProcessing cfg m p se _).productQueue.length ≤ s.productQueue.length
      rw [startProcessing_backlog]

/-- C7: conservation with bounded loss along any run of the manufacturing
system: `productsCompleted` never exceeds the number of units ever accepted
by the first stage; that number plus the remaining backlog never exceeds
the original backlog size; `productsCompleted` never decreases; and the
backlog never regrows. -/
theorem conservation_bounded_loss (cfg : Cfg) (n : ℕ) :
    (stepN cfg n msRun0).productsCompleted ≤
      (((stepN cfg n msRun0).machines 0).acceptedCount : ℤ) ∧
    ((stepN cfg n msRun0).machines 0).acceptedCount +
      (stepN cfg n msRun0).productQueue.length ≤ initialBacklog.length ∧
    (stepN cfg n msRun0).productsCompleted ≤ (stepN cfg (n + 1) msRun0).productsCompleted ∧
    (stepN cfg (n + 1) msRun0).productQueue.length ≤
      (stepN cfg n msRun0).productQueue.length := by
  have hinv : ∀ k, ConsInv (stepN cfg k msRun0) := by
    intro k
    induction k with
    | zero => exact consInv_msRun0
    | succ k ih =>
      rw [stepN_succ_outer]
      exact consInv_step cfg _ ih
  obtain ⟨g1, g2, g3, g4, g5⟩ := hinv n
  refine ⟨by omega, g5, ?_, ?_⟩
  · rw [stepN_succ_outer]
    exact step_completed_mono cfg _
  · rw [stepN_succ_outer]
    exact step_backlog_mono cfg _

/-- C8: with breakdown probability forced to 0 for every stage and the fixed
constructor backlog, the run is deterministic: for any two (non-negative)
random draw streams, the entire state sequence — in particular the total
simulated time and `productsCompleted` — coincides. -/
theorem no_breakdown_deterministic (d c : ℤ) (r1 r2 : Fin 5 → ℕ → ℚ)
    (h1 : ∀ m k, 0 ≤ r1 m k) (h2 : ∀ m k, 0 ≤ r2 m k) (n : ℕ) :
    stepN (noBreakCfg d c r1) n msRun0 = stepN (noBreakCfg d c r2) n msRun0 ∧
    (stepN (noBreakCfg d c r1) n msRun0).productsCompleted =
      (stepN (noBreakCfg d c r2) n msRun0).productsCompleted ∧
    (stepN (noBreakCfg d c r1) n msRun0).sim.currentTime =
      (stepN (noBreakCfg d c r2) n msRun0).sim.currentTime := by
  have heq : stepN (noBreakCfg d c r1) n msRun0 = stepN (noBreakCfg d c r2) n msRun0 :=
    stepN_rand_eq d c (fun m => { defaultMachineCfg m with breakdownProbability := 0 })
      r1 r2 (fun m2 => rfl) h1 h2 n msRun0
  exact ⟨heq, by rw [heq], by rw [heq]⟩

/-- Witness for C8: the all-zero and all-one-half streams give identical
states after 6 steps of an 8-hour single-shift run. -/
theorem no_breakdown_deterministic_witness :
    stepN (noBreakCfg 8 1 (fun _ _ => 0)) 6 msRun0 =
      stepN (noBreakCfg 8 1 (fun _ _ => 1/2)) 6 msRun0 ∧
    (stepN (noBreakCfg 8 1 (fun _ _ => 0)) 6 msRun0).productsCompleted =
      (stepN (noBreakCfg 8 1 (fun _ _ => 1/2)) 6 msRun0).productsCompleted ∧
    (stepN (noBreakCfg 8 1 (fun _ _ => 0)) 6 msRun0).sim.currentTime =
      (stepN (noBreakCfg 8 1 (fun _ _ => 1/2)) 6 msRun0).sim.currentTime :=
  no_breakdown_deterministic 8 1 (fun _ _ => 0) (fun _ _ => 1/2)
    (fun _ _ => le_refl 0) (fun _ _ => by norm_num) 6

end MfgSim
